import Mathlib

/-!
Verification of the STG → Verilog-A compiler core (stg2veriloga).

Part 1 models the simulation semantics of the emitted Verilog-A code:
the token state of the Petri net (place counts, per-transition ongoing
cells, signal levels, the shared completion counter `done`, the sticky
error flag and strobe log), and the state transformers corresponding to
the command blocks emitted by `Transition.isEnabled`, `Place.putToken`,
`Transition.getTokens` / `putTokens` / `fire`, the request and commit
blocks of `STG.__init__`, the per-edge diagnostic block, and the bounded
cascade-resolution loop.

Part 2 models the build phase: `STG.matchPlace`, `STG.matchTP` (with the
first-match semantics of the `re.findall` pattern), arc connection with
implicit-place synthesis, and the signal / marking declaration readers.
-/

set_option autoImplicit false

namespace StgVA

/-- A transition of the net, as the firing engine sees it: its token text,
    its from-places and its to-places (lists of place names, in arc order). -/
structure TransitionS where
  name : String
  fromPlaces : List String
  toPlaces : List String
deriving DecidableEq

/-- State of the generated simulation: place token counts, per-transition
    ongoing cells, signal levels, the shared completion counter `done`,
    the sticky error flag, the strobe log, a fatal marker (never touched by
    the event handlers; the cascade cap is modelled separately), and the
    reset-and-powered condition `rst.read() & (V(vdd,gnd) > 0.05)`. -/
structure SimState where
  counts : String → Int
  ongoing : String → Bool
  level : String → Bool
  done : Nat
  err : Bool
  strobes : List String
  fatal : Bool
  rstOn : Bool

/-- `Place.hasToken`: the emitted condition `var > 0`. -/
def hasToken (counts : String → Int) (p : String) : Bool :=
  decide (counts p > 0)

/-- The boolean-expression shapes that `Transition.isEnabled` builds:
    the literal `True`, a place's `hasToken` test, and conjunction `&`. -/
inductive BExpr where
  | tt
  | hasTok (p : String)
  | and (a b : BExpr)
deriving DecidableEq

/-- Evaluation of an emitted boolean expression at a token assignment. -/
def evalB (counts : String → Int) : BExpr → Bool
  | .tt => true
  | .hasTok p => hasToken counts p
  | .and a b => evalB counts a && evalB counts b

/-- `Transition.isEnabled`: `ans = True; for fromItem in getFrom(): ans = ans & fromItem.hasToken()`. -/
def isEnabled (t : TransitionS) : BExpr :=
  t.fromPlaces.foldl (fun ans p => .and ans (.hasTok p)) .tt

/-- The enabledness guard evaluated at a simulation state. -/
def isEnabledB (t : TransitionS) (s : SimState) : Bool :=
  evalB s.counts (isEnabled t)

/-- `Place.getToken`: `var.eq(var - 1)`. -/
def getToken (p : String) (s : SimState) : SimState :=
  { s with counts := Function.update s.counts p (s.counts p - 1) }

/-- `Place.putToken`: `var.eq(var + 1)` followed by
    `If(var > capacity)(Strobe(...), errVar.eq(True))`; `cap` gives each
    place's capacity attribute. -/
def putToken (cap : String → Int) (p : String) (s : SimState) : SimState :=
  let s1 : SimState := { s with counts := Function.update s.counts p (s.counts p + 1) }
  if s1.counts p > cap p then
    { s1 with strobes := s1.strobes ++ [p ++ " capacity was violated"], err := true }
  else s1

/-- `Transition.getTokens`: `CmdList(var.eq(True))` then one `getToken` per from-place. -/
def getTokens (t : TransitionS) (s : SimState) : SimState :=
  t.fromPlaces.foldl (fun s p => getToken p s)
    { s with ongoing := Function.update s.ongoing t.name true }

/-- `Transition.putTokens`: `CmdList(var.eq(False))` then one `putToken` per to-place. -/
def putTokens (cap : String → Int) (t : TransitionS) (s : SimState) : SimState :=
  t.toPlaces.foldl (fun s p => putToken cap p s)
    { s with ongoing := Function.update s.ongoing t.name false }

/-- `Transition.fire`: one `getToken` per from-place then one `putToken` per to-place. -/
def fire (cap : String → Int) (t : TransitionS) (s : SimState) : SimState :=
  t.toPlaces.foldl (fun s p => putToken cap p s)
    (t.fromPlaces.foldl (fun s p => getToken p s) s)

/-- `done.eq(n)`. -/
def setDone (n : Nat) (s : SimState) : SimState :=
  { s with done := n }

/-- `done.inc()`. -/
def incDone (s : SimState) : SimState :=
  { s with done := s.done + 1 }

/-- `Strobe(msg)` followed by `errVar.eq(True)`. -/
def strobeErr (msg : String) (s : SimState) : SimState :=
  { s with strobes := s.strobes ++ [msg], err := true }

/-- `signalObj.write(b)`. -/
def writeSig (sig : String) (b : Bool) (s : SimState) : SimState :=
  { s with level := Function.update s.level sig b }

/-- `signalObj.toggle()`. -/
def toggleSig (sig : String) (s : SimState) : SimState :=
  { s with level := Function.update s.level sig (!s.level sig) }

/-- The cascade-loop entry for a dummy transition:
    `If(isEnabled())(fire(), done.eq(0))`. -/
def dummyStep (cap : String → Int) (t : TransitionS) (s : SimState) : SimState :=
  if isEnabledB t s then setDone 0 (fire cap t s) else s

/-- The cascade-loop request entry emitted for a `+` transition of a
    controllable signal: `If(isEnabled())(getTokens(),
    If(getST())(Strobe(conflict), err := True).Else(write(True)), done.eq(0))`. -/
def requestPlus (sig : String) (t : TransitionS) (s : SimState) : SimState :=
  if isEnabledB t s then
    let s1 := getTokens t s
    let s2 :=
      if s1.level sig then
        strobeErr (t.name ++ " failed to trigger because " ++ sig ++ " is already high") s1
      else writeSig sig true s1
    setDone 0 s2
  else s

/-- The cascade-loop request entry emitted for a `-` transition of a
    controllable signal: `If(isEnabled())(getTokens(),
    If(getST())(write(False)).Else(Strobe(conflict), err := True), done.eq(0))`. -/
def requestMinus (sig : String) (t : TransitionS) (s : SimState) : SimState :=
  if isEnabledB t s then
    let s1 := getTokens t s
    let s2 :=
      if s1.level sig then writeSig sig false s1
      else strobeErr (t.name ++ " failed to trigger because " ++ sig ++ " is already low") s1
    setDone 0 s2
  else s

/-- The cascade-loop request entry emitted for a `~` transition of a
    controllable signal: `If(isEnabled())(getTokens(), toggle(), done.eq(0))`. -/
def requestToggle (sig : String) (t : TransitionS) (s : SimState) : SimState :=
  if isEnabledB t s then setDone 0 (toggleSig sig (getTokens t s)) else s

/-- The commit entry appended to a controllable signal's edge event:
    `If(isOnGoing())(putTokens(), done.inc())`. -/
def commitStep (cap : String → Int) (t : TransitionS) (s : SimState) : SimState :=
  if s.ongoing t.name then incDone (putTokens cap t s) else s

/-- The entry appended to an input signal's edge event:
    `If(isEnabled())(fire(), done.inc())`. -/
def inputFireStep (cap : String → Int) (t : TransitionS) (s : SimState) : SimState :=
  if isEnabledB t s then incDone (fire cap t s) else s

/-- The diagnostic tail appended to every signal's edge event:
    `If(done == 0)(Strobe(unexplained), err)` then
    `If(done > 1)(Strobe(racing), err)`. -/
def diagBlock (sig edge : String) (s : SimState) : SimState :=
  let s1 :=
    if s.done = 0 then
      strobeErr ("No transitions related to " ++ sig ++ edge ++ " are enabled") s
    else s
  if s1.done > 1 then
    strobeErr ("More than one transition fires for " ++ sig ++ edge) s1
  else s1

/-- The sequence of commit entries of one edge event, in emission order. -/
def commitFold (cap : String → Int) (commits : List TransitionS) (s : SimState) : SimState :=
  commits.foldl (fun s t => commitStep cap t s) s

/-- The sequence of atomic-fire entries of one input edge event. -/
def fireFold (cap : String → Int) (fires : List TransitionS) (s : SimState) : SimState :=
  fires.foldl (fun s t => inputFireStep cap t s) s

/-- The whole handler emitted at a controllable signal's edge crossing:
    `If(rst & powered)(done.eq(0), commit entries, diagnostics)`. -/
def edgeEventCtrl (cap : String → Int) (sig edge : String)
    (commits : List TransitionS) (s : SimState) : SimState :=
  if s.rstOn then diagBlock sig edge (commitFold cap commits (setDone 0 s)) else s

/-- The whole handler emitted at an input signal's edge crossing:
    `If(rst & powered)(done.eq(0), atomic-fire entries, diagnostics)`. -/
def edgeEventInput (cap : String → Int) (sig edge : String)
    (fires : List TransitionS) (s : SimState) : SimState :=
  if s.rstOn then diagBlock sig edge (fireFold cap fires (setDone 0 s)) else s

/-- Outcome of the bounded cascade-resolution loop: quiescence, or the
    `Fatal` raised when the pass counter exceeds 500; both record the
    number of passes executed. -/
inductive CascadeOut where
  | quiescent (s : SimState) (passes : Nat)
  | stuck (s : SimState) (passes : Nat)

/-- Number of passes the loop executed. -/
def CascadeOut.passes : CascadeOut → Nat
  | .quiescent _ n => n
  | .stuck _ n => n

/-- The emitted loop `While(~done)(iter.inc(), done.eq(1), cmdOut,
    If(iter > 500)(Fatal(...)))`, one pass per unfolding; `iter` is the
    pass counter and `fuel` a structural bound (the loop is entered with
    fuel 501, which the 500-pass cap can never exhaust). -/
def cascadeAux (body : SimState → SimState) : Nat → Nat → SimState → CascadeOut
  | iter, 0, s => .quiescent s iter
  | iter, fuel + 1, s =>
    let s1 := body (setDone 1 s)
    if iter + 1 > 500 then .stuck s1 (iter + 1)
    else if s1.done = 0 then cascadeAux body (iter + 1) fuel s1
    else .quiescent s1 (iter + 1)

/-- The cascade loop as emitted: `done.eq(0), iter.eq(0), While(~done)(...)`. -/
def cascadeRun (body : SimState → SimState) (s : SimState) : CascadeOut :=
  cascadeAux body 0 501 (setDone 0 s)

/-- A controllable-signal transition together with its signal and edge,
    as enumerated when `cmdOut` is assembled. -/
structure CtrlEntry where
  sig : String
  edge : String
  tr : TransitionS

/-- The request entry placed into `cmdOut` for one controllable transition,
    dispatched on its edge mark. -/
def requestStep (e : CtrlEntry) (s : SimState) : SimState :=
  if e.edge = "+" then requestPlus e.sig e.tr s
  else if e.edge = "-" then requestMinus e.sig e.tr s
  else requestToggle e.sig e.tr s

/-- The body of one cascade pass (`cmdOut`): all dummy entries first, then
    the request entries of the controllable transitions, in emission order. -/
def buildCmdOut (cap : String → Int) (dummies : List TransitionS)
    (ctrls : List CtrlEntry) (s : SimState) : SimState :=
  ctrls.foldl (fun s e => requestStep e s) (dummies.foldl (fun s t => dummyStep cap t s) s)

/-! ### Part 2: the build phase (`STG.__init__`, `matchPlace`, `matchTP`) -/

/-- Key of a cached transition: `transitions[signal][edge][name]` for a
    declared signal, `transitions[dummy][name]` for a dummy label. -/
inductive TransKey where
  | sig (signal edge name : String)
  | dum (dummy name : String)
deriving DecidableEq

/-- A cached Transition: its creation id (object identity), whether it
    carries an ongoing variable (controllable signals only), and its
    from/to place lists. -/
structure TransData where
  tid : Nat
  hasVar : Bool
  fromPlaces : List String
  toPlaces : List String
deriving DecidableEq

/-- A cached Place: its creation id, marking, capacity, and its incoming
    and outgoing transition lists. -/
structure PlaceData where
  pid : Nat
  marking : Int
  capacity : Int
  fromTrans : List TransKey
  toTrans : List TransKey
deriving DecidableEq

/-- What `matchTP` returns: a reference to a cached Place or Transition;
    the `id` is the object's identity. -/
inductive TPRef where
  | pl (name : String) (id : Nat)
  | tr (key : TransKey) (id : Nat)
deriving DecidableEq

/-- Build-time failures (each aborts the build). -/
inductive BErr where
  | duplicatedSignal
  | noSignals
  | placeToPlace
  | dupMarking
  | malformedToken
  | keyErr
deriving DecidableEq

/-- The builder's state: declared signal names (effective kind input or
    output), the subset that are `DigIn` pins, dummy labels, the transition
    and place caches, the marking and capacity override tables, and the
    next fresh object id. -/
structure BuildState where
  signals : List String
  inputsK : List String
  dummies : List String
  strans : List (TransKey × TransData)
  places : List (String × PlaceData)
  markings : List (String × Int)
  caps : List (String × Int)
  nextId : Nat
deriving DecidableEq

/-- First-entry lookup in an association list (Python `dict` access). -/
def alookup {α β : Type} [DecidableEq α] (k : α) : List (α × β) → Option β
  | [] => none
  | (k1, v) :: rest => if k = k1 then some v else alookup k rest

/-- Update the (first) entry with key `k` in place. -/
def aupdate {α β : Type} [DecidableEq α] (k : α) (f : β → β) :
    List (α × β) → List (α × β)
  | [] => []
  | (k1, v) :: rest => if k = k1 then (k1, f v) :: rest else (k1, v) :: aupdate k f rest

/-- `STG.matchPlace`: return the cached place, or create one whose marking
    and capacity come from the override tables (defaults 0 and 1) and
    cache it; returns the place's object id. -/
def matchPlace (st : BuildState) (name : String) : Nat × BuildState :=
  match alookup name st.places with
  | some P => (P.pid, st)
  | none =>
    let marking := (alookup name st.markings).getD 0
    let capacity := (alookup name st.caps).getD 1
    let P : PlaceData := ⟨st.nextId, marking, capacity, [], []⟩
    (st.nextId, { st with places := st.places ++ [(name, P)], nextId := st.nextId + 1 })

/-- `[a-zA-Z_]`, the characters that may start the identifier group. -/
def isIdentStart (c : Char) : Bool := c.isAlpha || c = '_'

/-- `[a-zA-Z_0-9.]`, the characters the identifier group may continue with. -/
def isIdentCont (c : Char) : Bool := c.isAlphanum || c = '_' || c = '.'

/-- The character class `[+-~]` of the pattern is a range from `'+'` to `'~'`. -/
def isEdgeChar (c : Char) : Bool := decide ('+' ≤ c) && decide (c ≤ '~')

/-- First match of `re.findall('([a-zA-Z_][a-zA-Z_0-9.]*)([+-~]?)(/[0-9]*)?', name)`:
    scan to the first identifier-start character, take the maximal
    identifier run as group 1, then at most one following character from
    the `[+-~]` range as group 2 (group 3 is never read by `matchTP`). -/
def findMatch : List Char → Option (String × String)
  | [] => none
  | c :: rest =>
    if isIdentStart c then
      let base := rest.takeWhile isIdentCont
      let after := rest.dropWhile isIdentCont
      let edge : String :=
        match after with
        | [] => ""
        | d :: _ => if isEdgeChar d then String.mk [d] else ""
      some (String.mk (c :: base), edge)
    else findMatch rest

/-- The keys present in `transitions[signal]` for a declared signal. -/
def edgeKeys : List String := ["+", "-", "~"]

/-- `STG.matchTP`: resolve a token to a cached Transition (for declared
    signals and dummy labels) or Place, creating and caching it on first
    reference; raises on a token the pattern cannot match at all, and a
    signal token whose edge group is not a key of `{'+', '-', '~'}` hits
    the dictionary `KeyError`. -/
def matchTP (st : BuildState) (name : String) : Except BErr (TPRef × BuildState) :=
  match findMatch name.toList with
  | none => .error .malformedToken
  | some (signame, sigEdge) =>
    if signame ∈ st.signals then
      if sigEdge ∈ edgeKeys then
        let key := TransKey.sig signame sigEdge name
        match alookup key st.strans with
        | some T => .ok (.tr key T.tid, st)
        | none =>
          let T : TransData := ⟨st.nextId, decide (signame ∉ st.inputsK), [], []⟩
          .ok (.tr key st.nextId,
               { st with strans := st.strans ++ [(key, T)], nextId := st.nextId + 1 })
      else .error .keyErr
    else if signame ∈ st.dummies then
      let key := TransKey.dum signame name
      match alookup key st.strans with
      | some T => .ok (.tr key T.tid, st)
      | none =>
        .ok (.tr key st.nextId,
             { st with strans := st.strans ++ [(key, ⟨st.nextId, false, [], []⟩)],
                       nextId := st.nextId + 1 })
    else
      let pr := matchPlace st name
      .ok (.pl name pr.1, pr.2)

/-- `fromTP.addTo(place)` for a cached transition. -/
def transAddTo (k : TransKey) (p : String) (st : BuildState) : BuildState :=
  { st with strans := aupdate k (fun T => { T with toPlaces := T.toPlaces ++ [p] }) st.strans }

/-- `toTP.addFrom(place)` for a cached transition. -/
def transAddFrom (k : TransKey) (p : String) (st : BuildState) : BuildState :=
  { st with strans := aupdate k (fun T => { T with fromPlaces := T.fromPlaces ++ [p] }) st.strans }

/-- `place.addTo(transition)` for a cached place. -/
def placeAddTo (p : String) (k : TransKey) (st : BuildState) : BuildState :=
  { st with places := aupdate p (fun P => { P with toTrans := P.toTrans ++ [k] }) st.places }

/-- `place.addFrom(transition)` for a cached place. -/
def placeAddFrom (p : String) (k : TransKey) (st : BuildState) : BuildState :=
  { st with places := aupdate p (fun P => { P with fromTrans := P.fromTrans ++ [k] }) st.places }

/-- One iteration of the inner arc loop of `STG.__init__`: `fromTP` is the
    already-resolved left token `fromName`; resolve `toName`, reject a
    place-to-place arc, splice the implicit place `fromName + "," + toName`
    between two transitions, and otherwise connect directly. -/
def connect (st : BuildState) (fromName : String) (fromTP : TPRef) (toName : String) :
    Except BErr BuildState :=
  match matchTP st toName with
  | .error e => .error e
  | .ok (toTP, st1) =>
    match fromTP, toTP with
    | .pl _ _, .pl _ _ => .error .placeToPlace
    | .tr fk _, .tr tk _ =>
      let impName := fromName ++ "," ++ toName
      let pr := matchPlace st1 impName
      .ok (placeAddTo impName tk (placeAddFrom impName fk
            (transAddFrom tk impName (transAddTo fk impName pr.2))))
    | .tr fk _, .pl pn _ => .ok (placeAddFrom pn fk (transAddTo fk pn st1))
    | .pl pn _, .tr tk _ => .ok (transAddFrom tk pn (placeAddTo pn tk st1))

/-- The effective-kind remapping handed to the builder; `STG.__init__`
    additionally forces `sigMap['dummy'] = 'dummy'`. -/
structure SigMap where
  inputK : String
  outputK : String
  internalK : String

/-- Effective kind of a declaration section. -/
def SigMap.kindOf (m : SigMap) (t : String) : String :=
  if t = "output" then m.outputK
  else if t = "input" then m.inputK
  else if t = "internal" then m.internalK
  else "dummy"

/-- The declaration sections of the parsed STG text (each may occur
    several times), as `STG.__init__` reads them. -/
structure Ast where
  outputs : List (List String)
  inputs : List (List String)
  internals : List (List String)
  dummy : List (List String)

/-- All declared (effective kind, name) pairs in processing order:
    `for sigType in ["output", "input", "internal", "dummy"]`. -/
def sigDecls (m : SigMap) (a : Ast) : List (String × String) :=
  (a.outputs.flatten.map fun n => (m.kindOf "output", n)) ++
  (a.inputs.flatten.map fun n => (m.kindOf "input", n)) ++
  (a.internals.flatten.map fun n => (m.kindOf "internal", n)) ++
  (a.dummy.flatten.map fun n => (m.kindOf "dummy", n))

/-- Register one declared signal: a name of effective kind input/output is
    checked against `self.signals` (duplicate asserts) and added; any other
    effective kind is appended to `self.dummies` with no duplicate check. -/
def addSignal (st : BuildState) (kind name : String) : Except BErr BuildState :=
  if kind = "input" ∨ kind = "output" then
    if name ∈ st.signals then .error .duplicatedSignal
    else .ok { st with
      signals := st.signals ++ [name],
      inputsK := if kind = "input" then st.inputsK ++ [name] else st.inputsK }
  else .ok { st with dummies := st.dummies ++ [name] }

/-- Register a list of declarations in order, stopping at the first failure. -/
def addSignals (st : BuildState) : List (String × String) → Except BErr BuildState
  | [] => .ok st
  | (k, n) :: rest =>
    match addSignal st k n with
    | .error e => .error e
    | .ok st1 => addSignals st1 rest

/-- The builder's initial state. -/
def emptyBuild : BuildState := ⟨[], [], [], [], [], [], [], 0⟩

/-- The signal-reading phase of `STG.__init__`, ending with
    `assert len(self.signals) > 0`. -/
def readSignals (m : SigMap) (a : Ast) : Except BErr BuildState :=
  match addSignals emptyBuild (sigDecls m a) with
  | .error e => .error e
  | .ok st => if st.signals = [] then .error .noSignals else .ok st

/-- Record one `.marking` entry (a name with an optional `= value`):
    duplicates assert; a bare name records 1. -/
def addMarking (st : BuildState) (e : String × Option Int) : Except BErr BuildState :=
  if (alookup e.1 st.markings).isSome then .error .dupMarking
  else .ok { st with markings := st.markings ++ [(e.1, e.2.getD 1)] }

/-- The marking-reading phase of `STG.__init__`. -/
def readMarkings (st : BuildState) : List (String × Option Int) → Except BErr BuildState
  | [] => .ok st
  | e :: rest =>
    match addMarking st e with
    | .error er => .error er
    | .ok st1 => readMarkings st1 rest

/-- `True` exactly on a successful build step. -/
def isOkE {ε α : Type} : Except ε α → Bool
  | .ok _ => true
  | .error _ => false

/-! ### Concrete fixtures used by the witnesses and counterexamples -/

/-- A small token assignment: one token on `p`, two on `q`. -/
def counts0 : String → Int := fun n => if n = "p" then 1 else if n = "q" then 2 else 0

/-- All capacities 1. -/
def cap0 : String → Int := fun _ => 1

/-- A transition consuming from `p` and `q` and producing into `r`. -/
def t0 : TransitionS := ⟨"a+", ["p", "q"], ["r"]⟩

/-- A quiet powered-up simulation state over `counts0`. -/
def s0 : SimState := ⟨counts0, fun _ => false, fun _ => false, 0, false, [], false, true⟩

/-- The place `p1` holding its marking of 2 tokens. -/
def countsC6 : String → Int := fun n => if n = "p1" then 2 else 0

/-- Capacity override `p1 = 2`. -/
def capC6 : String → Int := fun n => if n = "p1" then 2 else 1

/-- Simulation state for the capacity scenario of the spec. -/
def sC6 : SimState := ⟨countsC6, fun _ => false, fun _ => false, 0, false, [], false, true⟩

/-- A dummy transition whose single from-place is also its to-place. -/
def tD : TransitionS := ⟨"d1", ["p"], ["p"]⟩

/-- Start state for the self-re-enabling dummy: one token on `p`. -/
def sD : SimState :=
  ⟨fun n => if n = "p" then 1 else 0, fun _ => false, fun _ => false, 0, false, [], false, true⟩

/-- A build state after declarations: signals `a`, `b` (both writable),
    dummy `d`, marking overrides `p1 = 2` and `<a+,b+> = 1`, capacity
    override `p1 = 2`. -/
def stB : BuildState :=
  ⟨["a", "b"], [], ["d"], [], [], [("p1", 2), ("a+,b+", 1)], [("p1", 2)], 0⟩

/-- A build state declaring only the signal `b`. -/
def stC9 : BuildState := ⟨["b"], [], [], [], [], [], [], 0⟩

/-- The identity remapping (the CLI default: no `-seeInternals`, no `-allInputs`). -/
def mapDefault : SigMap := ⟨"input", "output", "internal"⟩

/-- An AST declaring input `b` and the dummy label `a` twice. -/
def astC8 : Ast := ⟨[], [["b"]], [], [["a", "a"]]⟩

/-- Marking entries: `p1 = 2` and the bare name `p2`. -/
def marksC10 : List (String × Option Int) := [("p1", some 2), ("p2", none)]

/-- Like `s0`, but with the ongoing cell of transition `a+` set. -/
def sOn : SimState :=
  ⟨counts0, fun n => decide (n = "a+"), fun _ => false, 0, false, [], false, true⟩

/-- A powered-up state with a stale completion count. -/
def s7 : SimState :=
  ⟨counts0, fun _ => false, fun _ => false, 5, false, [], false, true⟩

/-- Extract a successful result, with a fallback for the error case. -/
def okOr {ε α : Type} (d : α) : Except ε α → α
  | .ok a => a
  | .error _ => d

/-- The resolution of token `a+` in `stB` (a fresh transition of signal `a`). -/
def resA : TPRef × BuildState := okOr (.pl "" 0, emptyBuild) (matchTP stB "a+")

/-- The resolution of token `b+` after `a+` (a fresh transition of signal `b`). -/
def resB : TPRef × BuildState := okOr (.pl "" 0, emptyBuild) (matchTP resA.2 "b+")

/-- Whether an effective kind is handled by the input/output branch of the
    signal-reading loop. -/
def isIOKind (k : String) : Bool := decide (k = "input") || decide (k = "output")

/-- The names whose declarations take the input/output branch, in order. -/
def ioNames (decls : List (String × String)) : List String :=
  (decls.filter fun d => isIOKind d.1).map Prod.snd

/-- One build step following a resolution of the first token of an arc:
    a further token resolution, a direct `matchPlace` call (implicit
    places), or the connection of one arc pair. -/
inductive BuildStep : BuildState → BuildState → Prop where
  | tp (name : String) (r : TPRef) (s s1 : BuildState) :
      matchTP s name = .ok (r, s1) → BuildStep s s1
  | place (name : String) (s : BuildState) : BuildStep s (matchPlace s name).2
  | conn (fromName : String) (fromTP : TPRef) (toName : String) (s s1 : BuildState) :
      connect s fromName fromTP toName = .ok s1 → BuildStep s s1

/-- Any interleaving of further build steps. -/
inductive BuildReach : BuildState → BuildState → Prop where
  | refl (s : BuildState) : BuildReach s s
  | step (s s1 s2 : BuildState) : BuildStep s s1 → BuildReach s1 s2 → BuildReach s s2

/-- The build only ever grows its caches: the declaration tables are
    unchanged and every cached place or transition keeps its identity. -/
def RefStable (s s1 : BuildState) : Prop :=
  s1.signals = s.signals ∧ s1.inputsK = s.inputsK ∧ s1.dummies = s.dummies ∧
  s1.markings = s.markings ∧ s1.caps = s.caps ∧
  (∀ n P, alookup n s.places = some P →
    ∃ Q, alookup n s1.places = some Q ∧ Q.pid = P.pid) ∧
  (∀ k T, alookup k s.strans = some T →
    ∃ U, alookup k s1.strans = some U ∧ U.tid = T.tid)

/-- The build state produced by reading `marksC10`. -/
def stM : BuildState := okOr emptyBuild (readMarkings emptyBuild marksC10)

/-- An AST declaring the input `b` twice. -/
def astDup : Ast := ⟨[], [["b", "b"]], [], []⟩

/-- An AST declaring only the dummy label `a`. -/
def astEmpty : Ast := ⟨[], [], [], [["a"]]⟩

/-- The build state produced by reading `astC8`'s declarations. -/
def stC8 : BuildState := okOr emptyBuild (readSignals mapDefault astC8)

/-- The build state after the token `1a` has been resolved in `stC9`. -/
def stC9a : BuildState := (okOr (.pl "" 0, emptyBuild) (matchTP stC9 "1a")).2

/-- The build state after connecting `a+` to `b+` from `resA.2`. -/
def stC3 : BuildState :=
  okOr emptyBuild (connect resA.2 "a+" (.tr (.sig "a" "+" "a+") 0) "b+")

/-! ### Helper lemmas about the simulation operations -/

theorem evalB_foldl (c : String → Int) (l : List String) (acc : BExpr) :
    evalB c (l.foldl (fun ans p => .and ans (.hasTok p)) acc) =
      (evalB c acc && l.all fun p => hasToken c p) := by
  induction l generalizing acc with
  | nil => simp
  | cons p rest ih =>
    rw [List.foldl_cons, ih]
    simp [evalB, Bool.and_assoc]

theorem isEnabled_eval (t : TransitionS) (c : String → Int) :
    evalB c (isEnabled t) = (t.fromPlaces.all fun p => hasToken c p) := by
  rw [isEnabled, evalB_foldl]
  simp [evalB]

theorem putToken_counts (cap : String → Int) (p : String) (s : SimState) (q : String) :
    (putToken cap p s).counts q = if q = p then s.counts p + 1 else s.counts q := by
  by_cases h : q = p <;>
    simp [putToken, Function.update, h] <;> split <;> simp [h]

theorem putToken_rest (cap : String → Int) (p : String) (s : SimState) :
    (putToken cap p s).ongoing = s.ongoing ∧ (putToken cap p s).level = s.level ∧
    (putToken cap p s).done = s.done ∧ (putToken cap p s).fatal = s.fatal ∧
    (putToken cap p s).rstOn = s.rstOn := by
  simp only [putToken]
  split <;> simp

theorem getToken_counts (p : String) (s : SimState) (q : String) :
    (getToken p s).counts q = if q = p then s.counts p - 1 else s.counts q := by
  by_cases h : q = p <;> simp [getToken, Function.update, h]

theorem foldGet_counts (l : List String) (s : SimState) (q : String) :
    ((l.foldl (fun s p => getToken p s) s).counts q) = s.counts q - (l.count q : Int) := by
  induction l generalizing s with
  | nil => simp
  | cons p rest ih =>
    rw [List.foldl_cons, ih]
    by_cases h : q = p
    · subst h
      rw [getToken_counts, List.count_cons_self]
      simp only [if_pos rfl]
      push_cast
      ring
    · rw [getToken_counts, if_neg h, List.count_cons_of_ne]
      exact fun hq => h (by simpa using hq)

theorem foldGet_rest (l : List String) (s : SimState) :
    ((l.foldl (fun s p => getToken p s) s).ongoing = s.ongoing) ∧
    ((l.foldl (fun s p => getToken p s) s).level = s.level) ∧
    ((l.foldl (fun s p => getToken p s) s).done = s.done) ∧
    ((l.foldl (fun s p => getToken p s) s).err = s.err) ∧
    ((l.foldl (fun s p => getToken p s) s).strobes = s.strobes) ∧
    ((l.foldl (fun s p => getToken p s) s).fatal = s.fatal) ∧
    ((l.foldl (fun s p => getToken p s) s).rstOn = s.rstOn) := by
  induction l generalizing s with
  | nil => simp
  | cons p rest ih =>
    rw [List.foldl_cons]
    have h := ih (getToken p s)
    simpa [getToken] using h

theorem foldPut_counts (cap : String → Int) (l : List String) (s : SimState) (q : String) :
    ((l.foldl (fun s p => putToken cap p s) s).counts q) = s.counts q + (l.count q : Int) := by
  induction l generalizing s with
  | nil => simp
  | cons p rest ih =>
    rw [List.foldl_cons, ih]
    by_cases h : q = p
    · subst h
      rw [putToken_counts, List.count_cons_self]
      simp only [if_pos rfl]
      push_cast
      ring
    · rw [putToken_counts, if_neg h, List.count_cons_of_ne]
      exact fun hq => h (by simpa using hq)

theorem foldPut_rest (cap : String → Int) (l : List String) (s : SimState) :
    ((l.foldl (fun s p => putToken cap p s) s).ongoing = s.ongoing) ∧
    ((l.foldl (fun s p => putToken cap p s) s).level = s.level) ∧
    ((l.foldl (fun s p => putToken cap p s) s).done = s.done) ∧
    ((l.foldl (fun s p => putToken cap p s) s).fatal = s.fatal) ∧
    ((l.foldl (fun s p => putToken cap p s) s).rstOn = s.rstOn) := by
  induction l generalizing s with
  | nil => simp
  | cons p rest ih =>
    rw [List.foldl_cons]
    have h := ih (putToken cap p s)
    have hr := putToken_rest cap p s
    exact ⟨h.1.trans hr.1, h.2.1.trans hr.2.1, h.2.2.1.trans hr.2.2.1,
           h.2.2.2.1.trans hr.2.2.2.1, h.2.2.2.2.trans hr.2.2.2.2⟩

theorem getTokens_spec (t : TransitionS) (s : SimState) :
    (∀ q, (getTokens t s).counts q = s.counts q - (t.fromPlaces.count q : Int)) ∧
    (getTokens t s).ongoing = Function.update s.ongoing t.name true ∧
    (getTokens t s).level = s.level ∧ (getTokens t s).done = s.done ∧
    (getTokens t s).err = s.err ∧ (getTokens t s).strobes = s.strobes ∧
    (getTokens t s).fatal = s.fatal := by
  unfold getTokens
  refine ⟨fun q => ?_, ?_, ?_, ?_, ?_, ?_, ?_⟩
  · rw [foldGet_counts]
  · rw [(foldGet_rest _ _).1]
  · rw [(foldGet_rest _ _).2.1]
  · rw [(foldGet_rest _ _).2.2.1]
  · rw [(foldGet_rest _ _).2.2.2.1]
  · rw [(foldGet_rest _ _).2.2.2.2.1]
  · rw [(foldGet_rest _ _).2.2.2.2.2.1]

theorem putTokens_spec (cap : String → Int) (t : TransitionS) (s : SimState) :
    (∀ q, (putTokens cap t s).counts q = s.counts q + (t.toPlaces.count q : Int)) ∧
    (putTokens cap t s).ongoing = Function.update s.ongoing t.name false ∧
    (putTokens cap t s).level = s.level ∧ (putTokens cap t s).done = s.done ∧
    (putTokens cap t s).fatal = s.fatal := by
  unfold putTokens
  refine ⟨fun q => ?_, ?_, ?_, ?_, ?_⟩
  · rw [foldPut_counts]
  · rw [(foldPut_rest _ _ _).1]
  · rw [(foldPut_rest _ _ _).2.1]
  · rw [(foldPut_rest _ _ _).2.2.1]
  · rw [(foldPut_rest _ _ _).2.2.2.1]

theorem fire_spec (cap : String → Int) (t : TransitionS) (s : SimState) :
    (∀ q, (fire cap t s).counts q =
      s.counts q - (t.fromPlaces.count q : Int) + (t.toPlaces.count q : Int)) ∧
    (fire cap t s).ongoing = s.ongoing ∧ (fire cap t s).level = s.level ∧
    (fire cap t s).done = s.done ∧ (fire cap t s).fatal = s.fatal ∧
    (fire cap t s).rstOn = s.rstOn := by
  unfold fire
  refine ⟨fun q => ?_, ?_, ?_, ?_, ?_, ?_⟩
  · rw [foldPut_counts, foldGet_counts]
  · rw [(foldPut_rest _ _ _).1, (foldGet_rest _ _).1]
  · rw [(foldPut_rest _ _ _).2.1, (foldGet_rest _ _).2.1]
  · rw [(foldPut_rest _ _ _).2.2.1, (foldGet_rest _ _).2.2.1]
  · rw [(foldPut_rest _ _ _).2.2.2.1, (foldGet_rest _ _).2.2.2.2.2.1]
  · rw [(foldPut_rest _ _ _).2.2.2.2, (foldGet_rest _ _).2.2.2.2.2.2]

/-! ### Claim theorems: C1 and C6 -/

/-- C1: the guard emitted by `Transition.isEnabled` is the conjunction, over
    all from-places, of that place's `count > 0` test: it holds iff every
    from-place has at least one token, and zeroing any one from-place's
    count makes the guard false. -/
theorem c1_enabled_guard (t : TransitionS) (counts : String → Int) :
    (evalB counts (isEnabled t) = (t.fromPlaces.all fun p => hasToken counts p)) ∧
    (∀ p, p ∈ t.fromPlaces → evalB (Function.update counts p 0) (isEnabled t) = false) := by
  refine ⟨isEnabled_eval t counts, fun p hp => ?_⟩
  rw [isEnabled_eval]
  refine List.all_eq_false.mpr ⟨p, hp, ?_⟩
  simp [hasToken, Function.update]

/-- Witness for C1 at a concrete transition and token assignment. -/
theorem c1_enabled_guard_witness :
    (evalB counts0 (isEnabled t0) = (t0.fromPlaces.all fun p => hasToken counts0 p)) ∧
    evalB (Function.update counts0 "p" 0) (isEnabled t0) = false :=
  ⟨(c1_enabled_guard t0 counts0).1, (c1_enabled_guard t0 counts0).2 "p" (by decide)⟩

/-- C6: `Place.putToken` increments the count, then compares the new count
    with the capacity; on violation it strobes and sets the sticky error
    without blocking the placement or aborting, and other places are
    untouched. -/
theorem c6_putToken_capacity (cap : String → Int) (p : String) (s : SimState) :
    ((putToken cap p s).counts p = s.counts p + 1) ∧
    ((putToken cap p s).err = (s.err || decide (s.counts p + 1 > cap p))) ∧
    ((putToken cap p s).strobes =
      s.strobes ++ (if s.counts p + 1 > cap p then [p ++ " capacity was violated"] else [])) ∧
    ((putToken cap p s).fatal = s.fatal) ∧
    (∀ q, q ≠ p → (putToken cap p s).counts q = s.counts q) := by
  by_cases h : s.counts p + 1 > cap p
  · refine ⟨?_, ?_, ?_, ?_, fun q hq => ?_⟩
    · simp [putToken, Function.update, h]
    · simp [putToken, Function.update, h]
    · simp [putToken, Function.update, h]
    · simp [putToken, Function.update, h]
    · simp [putToken, Function.update, h, hq]
  · refine ⟨?_, ?_, ?_, ?_, fun q hq => ?_⟩
    · simp [putToken, Function.update, h]
    · simp [putToken, Function.update, h]
    · simp [putToken, Function.update, h]
    · simp [putToken, Function.update, h]
    · simp [putToken, Function.update, h, hq]

/-- Witness for C6: the spec's scenario, marking 2 and capacity 2 on `p1`;
    the third token is placed (count 3), the violation strobed, the error
    set, and `q` untouched. -/
theorem c6_putToken_capacity_witness :
    (putToken capC6 "p1" sC6).counts "p1" = 3 ∧
    (putToken capC6 "p1" sC6).err = true ∧
    (putToken capC6 "p1" sC6).strobes = ["p1 capacity was violated"] ∧
    (putToken capC6 "p1" sC6).counts "q" = 0 := by
  have h := c6_putToken_capacity capC6 "p1" sC6
  refine ⟨?_, ?_, ?_, ?_⟩
  · rw [h.1]; decide
  · rw [h.2.1]; decide
  · rw [h.2.2.1]; decide
  · rw [h.2.2.2.2 "q" (by decide)]; decide

/-- C2: the two-phase firing of a controllable-signal transition. The
    request entry (placed into the cascade loop's `cmdOut`) does nothing
    unless the transition is enabled; when enabled it removes one token per
    from-place occurrence, sets the ongoing cell, clears `done`, and either
    raises the write-conflict error (signal already at the target level,
    level left unchanged) or issues the write. The commit entry (placed in
    the signal's edge-crossing handler) does nothing unless the ongoing
    cell is set; when set it adds one token per to-place occurrence, clears
    the ongoing cell and increments the completion counter. -/
theorem c2_request_commit (cap : String → Int) (sig : String) (t : TransitionS) (s : SimState) :
    (isEnabledB t s = false →
      requestPlus sig t s = s ∧ requestMinus sig t s = s ∧ requestToggle sig t s = s) ∧
    (isEnabledB t s = true →
      (∀ q, (requestPlus sig t s).counts q = s.counts q - (t.fromPlaces.count q : Int)) ∧
      (requestPlus sig t s).ongoing t.name = true ∧
      (requestPlus sig t s).done = 0 ∧
      (requestPlus sig t s).fatal = s.fatal ∧
      (s.level sig = true →
        (requestPlus sig t s).err = true ∧
        (requestPlus sig t s).level = s.level ∧
        (requestPlus sig t s).strobes =
          s.strobes ++ [t.name ++ " failed to trigger because " ++ sig ++ " is already high"]) ∧
      (s.level sig = false →
        (requestPlus sig t s).level sig = true ∧
        (requestPlus sig t s).err = s.err ∧
        (requestPlus sig t s).strobes = s.strobes)) ∧
    (isEnabledB t s = true →
      (∀ q, (requestMinus sig t s).counts q = s.counts q - (t.fromPlaces.count q : Int)) ∧
      (requestMinus sig t s).ongoing t.name = true ∧
      (requestMinus sig t s).done = 0 ∧
      (requestMinus sig t s).fatal = s.fatal ∧
      (s.level sig = false →
        (requestMinus sig t s).err = true ∧
        (requestMinus sig t s).level = s.level ∧
        (requestMinus sig t s).strobes =
          s.strobes ++ [t.name ++ " failed to trigger because " ++ sig ++ " is already low"]) ∧
      (s.level sig = true →
        (requestMinus sig t s).level sig = false ∧
        (requestMinus sig t s).err = s.err ∧
        (requestMinus sig t s).strobes = s.strobes)) ∧
    (s.ongoing t.name = false → commitStep cap t s = s) ∧
    (s.ongoing t.name = true →
      (∀ q, (commitStep cap t s).counts q = s.counts q + (t.toPlaces.count q : Int)) ∧
      (commitStep cap t s).ongoing t.name = false ∧
      (commitStep cap t s).done = s.done + 1 ∧
      (commitStep cap t s).fatal = s.fatal) := by
  have hg := getTokens_spec t s
  refine ⟨fun hne => ?_, fun he => ?_, fun he => ?_, fun hno => ?_, fun hon => ?_⟩
  · simp [requestPlus, requestMinus, requestToggle, hne]
  · rw [requestPlus]
    simp only [he, if_true]
    rw [hg.2.2.1]
    by_cases hl : s.level sig = true
    · refine ⟨fun q => ?_, ?_, ?_, ?_, fun _ => ⟨?_, ?_, ?_⟩, fun hl0 => absurd hl (by simp [hl0])⟩ <;>
        simp [hl, setDone, strobeErr, hg.1, hg.2.1, hg.2.2.1, hg.2.2.2.2.1,
              hg.2.2.2.2.2.1, hg.2.2.2.2.2.2, Function.update]
    · replace hl : s.level sig = false := by simpa using hl
      refine ⟨fun q => ?_, ?_, ?_, ?_, fun hl1 => absurd hl (by simp [hl1]), fun _ => ⟨?_, ?_, ?_⟩⟩ <;>
        simp [hl, setDone, writeSig, hg.1, hg.2.1, hg.2.2.1, hg.2.2.2.2.1,
              hg.2.2.2.2.2.1, hg.2.2.2.2.2.2, Function.update]
  · rw [requestMinus]
    simp only [he, if_true]
    rw [hg.2.2.1]
    by_cases hl : s.level sig = true
    · refine ⟨fun q => ?_, ?_, ?_, ?_, fun hl0 => absurd hl (by simp [hl0]), fun _ => ⟨?_, ?_, ?_⟩⟩ <;>
        simp [hl, setDone, writeSig, hg.1, hg.2.1, hg.2.2.1, hg.2.2.2.2.1,
              hg.2.2.2.2.2.1, hg.2.2.2.2.2.2, Function.update]
    · replace hl : s.level sig = false := by simpa using hl
      refine ⟨fun q => ?_, ?_, ?_, ?_, fun _ => ⟨?_, ?_, ?_⟩, fun hl1 => absurd hl (by simp [hl1])⟩ <;>
        simp [hl, setDone, strobeErr, hg.1, hg.2.1, hg.2.2.1, hg.2.2.2.2.1,
              hg.2.2.2.2.2.1, hg.2.2.2.2.2.2, Function.update]
  · simp [commitStep, hno]
  · have hp := putTokens_spec cap t s
    refine ⟨fun q => ?_, ?_, ?_, ?_⟩ <;>
      simp [commitStep, hon, incDone, hp.1, hp.2.1, hp.2.2.2.1, hp.2.2.2.2, Function.update]

/-- Witness for C2 at the concrete transition `a+` of signal `a`: the
    enabled request consumes `p` and `q`, sets the ongoing cell, issues the
    rising write and clears `done`; the commit from an ongoing state fills
    `r`, clears the cell and counts one completion. -/
theorem c2_request_commit_witness :
    (requestPlus "a" t0 s0).counts "p" = 0 ∧
    (requestPlus "a" t0 s0).ongoing "a+" = true ∧
    (requestPlus "a" t0 s0).done = 0 ∧
    (requestPlus "a" t0 s0).level "a" = true ∧
    (requestPlus "a" t0 s0).err = false ∧
    commitStep cap0 t0 s0 = s0 ∧
    (commitStep cap0 t0 sOn).counts "r" = 1 ∧
    (commitStep cap0 t0 sOn).ongoing "a+" = false ∧
    (commitStep cap0 t0 sOn).done = 1 := by
  have h := c2_request_commit cap0 "a" t0 s0
  have hOn := c2_request_commit cap0 "a" t0 sOn
  have he : isEnabledB t0 s0 = true := by decide
  have hl : s0.level "a" = false := by decide
  refine ⟨?_, ?_, ?_, ?_, ?_, ?_, ?_, ?_, ?_⟩
  · rw [(h.2.1 he).1 "p"]; decide
  · exact (h.2.1 he).2.1
  · exact (h.2.1 he).2.2.1
  · exact ((h.2.1 he).2.2.2.2.2 hl).1
  · rw [((h.2.1 he).2.2.2.2.2 hl).2.1]; decide
  · exact h.2.2.2.1 (by decide)
  · rw [(hOn.2.2.2.2 (by decide)).1 "r"]; decide
  · exact (hOn.2.2.2.2 (by decide)).2.1
  · rw [(hOn.2.2.2.2 (by decide)).2.2.1]; decide

theorem countP_ext {α : Type} (p q : α → Bool) (l : List α)
    (h : ∀ a, a ∈ l → p a = q a) : l.countP p = l.countP q := by
  induction l with
  | nil => rfl
  | cons a rest ih =>
    rw [List.countP_cons, List.countP_cons, h a (by simp),
        ih fun b hb => h b (by simp [hb])]

theorem commitStep_ongoing (cap : String → Int) (t : TransitionS) (s : SimState) :
    (commitStep cap t s).ongoing =
      if s.ongoing t.name then Function.update s.ongoing t.name false else s.ongoing := by
  by_cases h : s.ongoing t.name
  · simp only [commitStep, h, if_true, incDone]
    rw [(putTokens_spec cap t s).2.1]
  · simp [commitStep, h]

theorem commitStep_fatal (cap : String → Int) (t : TransitionS) (s : SimState) :
    (commitStep cap t s).fatal = s.fatal := by
  by_cases h : s.ongoing t.name
  · simp only [commitStep, h, if_true, incDone]
    rw [(putTokens_spec cap t s).2.2.2.2]
  · simp [commitStep, h]

theorem commitStep_done (cap : String → Int) (t : TransitionS) (s : SimState) :
    (commitStep cap t s).done = s.done + (if s.ongoing t.name then 1 else 0) := by
  by_cases h : s.ongoing t.name
  · simp only [commitStep, h, if_true, incDone]
    rw [(putTokens_spec cap t s).2.2.2.1]
  · simp [commitStep, h]

theorem commitFold_done (cap : String → Int) (commits : List TransitionS) (s : SimState)
    (hnd : (commits.map TransitionS.name).Nodup) :
    (commitFold cap commits s).done = s.done + commits.countP (fun t => s.ongoing t.name) := by
  induction commits generalizing s with
  | nil => simp [commitFold]
  | cons t rest ih =>
    rw [List.map_cons, List.nodup_cons] at hnd
    have hstep : commitFold cap (t :: rest) s = commitFold cap rest (commitStep cap t s) := by
      simp [commitFold]
    rw [hstep, ih (commitStep cap t s) hnd.2, commitStep_done, commitStep_ongoing]
    have hcong : rest.countP
        (fun u => (if s.ongoing t.name then Function.update s.ongoing t.name false
                   else s.ongoing) u.name) =
        rest.countP (fun u => s.ongoing u.name) := by
      refine countP_ext _ _ rest fun u hu => ?_
      have hne : u.name ≠ t.name := by
        intro hEq
        exact hnd.1 (hEq ▸ List.mem_map_of_mem TransitionS.name hu)
      by_cases h : s.ongoing t.name
      · simp [h, Function.update, hne]
      · simp [h]
    rw [hcong, List.countP_cons]
    by_cases h : s.ongoing t.name
    · simp [h]; omega
    · simp [h]

theorem commitFold_fatal (cap : String → Int) (commits : List TransitionS) (s : SimState) :
    (commitFold cap commits s).fatal = s.fatal := by
  induction commits generalizing s with
  | nil => simp [commitFold]
  | cons t rest ih =>
    have hstep : commitFold cap (t :: rest) s = commitFold cap rest (commitStep cap t s) := by
      simp [commitFold]
    rw [hstep, ih, commitStep_fatal]

theorem inputFireStep_fatal (cap : String → Int) (t : TransitionS) (s : SimState) :
    (inputFireStep cap t s).fatal = s.fatal := by
  by_cases h : isEnabledB t s
  · simp only [inputFireStep, h, if_true, incDone]
    exact (fire_spec cap t s).2.2.2.2.1
  · simp [inputFireStep, h]

theorem fireFold_fatal (cap : String → Int) (fires : List TransitionS) (s : SimState) :
    (fireFold cap fires s).fatal = s.fatal := by
  induction fires generalizing s with
  | nil => simp [fireFold]
  | cons t rest ih =>
    have hstep : fireFold cap (t :: rest) s = fireFold cap rest (inputFireStep cap t s) := by
      simp [fireFold]
    rw [hstep, ih, inputFireStep_fatal]

theorem diagBlock_spec (sig edge : String) (s : SimState) :
    ((diagBlock sig edge s).strobes = s.strobes
      ++ (if s.done = 0
          then ["No transitions related to " ++ sig ++ edge ++ " are enabled"] else [])
      ++ (if s.done > 1
          then ["More than one transition fires for " ++ sig ++ edge] else [])) ∧
    ((diagBlock sig edge s).err = (s.err || decide (s.done = 0) || decide (s.done > 1))) ∧
    ((diagBlock sig edge s).done = s.done) ∧
    ((diagBlock sig edge s).fatal = s.fatal) := by
  by_cases h0 : s.done = 0
  · have h1 : ¬ s.done > 1 := by omega
    refine ⟨?_, ?_, ?_, ?_⟩ <;> simp [diagBlock, strobeErr, h0, h1]
  · by_cases h1 : s.done > 1
    · refine ⟨?_, ?_, ?_, ?_⟩ <;> simp [diagBlock, strobeErr, h0, h1]
    · refine ⟨?_, ?_, ?_, ?_⟩ <;> simp [diagBlock, strobeErr, h0, h1]

/-- C7 counterexample to "and only for controllable signals": the handler
    emitted for an edge crossing of the *input* signal `a` (lines 585-600
    and 668-705 run for every signal) also resets the completion counter
    and raises the unexplained-edge diagnostic, non-fatally. -/
theorem c7_input_gets_diagnostics_counterexample :
    (edgeEventInput cap0 "a" "+" [] s7).strobes
      = ["No transitions related to a+ are enabled"] ∧
    (edgeEventInput cap0 "a" "+" [] s7).err = true ∧
    (edgeEventInput cap0 "a" "+" [] s7).done = 0 ∧
    (edgeEventInput cap0 "a" "+" [] s7).fatal = false ∧
    s7.err = false := by
  refine ⟨rfl, rfl, rfl, rfl, rfl⟩

/-- C7 (amended): for each observed edge crossing of any declared signal —
    controllable *or* input — the emitted handler resets the completion
    counter, accumulates completions into it (for a controllable signal,
    one per transition of that signal/edge whose ongoing cell is set), then
    strobes the unexplained-edge diagnostic exactly when the counter is 0
    and the racing-completion diagnostic exactly when it exceeds 1; both
    set the sticky error and neither is fatal. -/
theorem c7_edge_diagnostics (cap : String → Int) (sig edge : String)
    (commits fires : List TransitionS) (s : SimState)
    (hr : s.rstOn = true) (hnd : (commits.map TransitionS.name).Nodup) :
    ((commitFold cap commits (setDone 0 s)).done
      = commits.countP (fun t => s.ongoing t.name)) ∧
    ((edgeEventCtrl cap sig edge commits s).strobes
      = (commitFold cap commits (setDone 0 s)).strobes
        ++ (if (commitFold cap commits (setDone 0 s)).done = 0
            then ["No transitions related to " ++ sig ++ edge ++ " are enabled"] else [])
        ++ (if (commitFold cap commits (setDone 0 s)).done > 1
            then ["More than one transition fires for " ++ sig ++ edge] else [])) ∧
    ((edgeEventCtrl cap sig edge commits s).err
      = ((commitFold cap commits (setDone 0 s)).err
         || decide ((commitFold cap commits (setDone 0 s)).done = 0)
         || decide ((commitFold cap commits (setDone 0 s)).done > 1))) ∧
    ((edgeEventCtrl cap sig edge commits s).fatal = s.fatal) ∧
    ((edgeEventInput cap sig edge fires s).strobes
      = (fireFold cap fires (setDone 0 s)).strobes
        ++ (if (fireFold cap fires (setDone 0 s)).done = 0
            then ["No transitions related to " ++ sig ++ edge ++ " are enabled"] else [])
        ++ (if (fireFold cap fires (setDone 0 s)).done > 1
            then ["More than one transition fires for " ++ sig ++ edge] else [])) ∧
    ((edgeEventInput cap sig edge fires s).err
      = ((fireFold cap fires (setDone 0 s)).err
         || decide ((fireFold cap fires (setDone 0 s)).done = 0)
         || decide ((fireFold cap fires (setDone 0 s)).done > 1))) ∧
    ((edgeEventInput cap sig edge fires s).fatal = s.fatal) := by
  have hctrl : edgeEventCtrl cap sig edge commits s
      = diagBlock sig edge (commitFold cap commits (setDone 0 s)) := by
    simp [edgeEventCtrl, hr]
  have hinp : edgeEventInput cap sig edge fires s
      = diagBlock sig edge (fireFold cap fires (setDone 0 s)) := by
    simp [edgeEventInput, hr]
  have hdone := commitFold_done cap commits (setDone 0 s) hnd
  have hdC := diagBlock_spec sig edge (commitFold cap commits (setDone 0 s))
  have hdI := diagBlock_spec sig edge (fireFold cap fires (setDone 0 s))
  refine ⟨?_, ?_, ?_, ?_, ?_, ?_, ?_⟩
  · rw [hdone]; simp [setDone]
  · rw [hctrl]; exact hdC.1
  · rw [hctrl]; exact hdC.2.1
  · rw [hctrl, hdC.2.2.2, commitFold_fatal]; simp [setDone]
  · rw [hinp]; exact hdI.1
  · rw [hinp]; exact hdI.2.1
  · rw [hinp, hdI.2.2.2, fireFold_fatal]; simp [setDone]

/-- Witness for the amended C7 at a controllable signal with one ongoing
    transition and an input signal with no transitions. -/
theorem c7_edge_diagnostics_witness :
    (commitFold cap0 [t0] (setDone 0 sOn)).done = 1 ∧
    (edgeEventCtrl cap0 "a" "+" [t0] sOn).err = false ∧
    (edgeEventInput cap0 "b" "-" [] sOn).err = true := by
  have h := c7_edge_diagnostics cap0 "a" "+" [t0] [] sOn rfl (by decide)
  have h2 := c7_edge_diagnostics cap0 "b" "-" [] [] sOn rfl (by decide)
  refine ⟨?_, ?_, ?_⟩
  · rw [h.1]; decide
  · rw [h.2.2.1]; decide
  · rw [h2.2.2.2.2.2.1]; decide

theorem setDone_setDone (m n : Nat) (s : SimState) : setDone m (setDone n s) = setDone m s := rfl

theorem cascadeAux_fuel (body : SimState → SimState) :
    ∀ (fuel iter : Nat) (s : SimState), iter ≤ 500 → 501 - iter ≤ fuel →
      cascadeAux body iter fuel s = cascadeAux body iter (501 - iter) s := by
  intro fuel
  induction fuel with
  | zero => intro iter s hi hf; omega
  | succ fuel ih =>
    intro iter s hi hf
    have h501 : 501 - iter = (500 - iter) + 1 := by omega
    rw [h501]
    by_cases hcap : iter + 1 > 500
    · simp only [cascadeAux, hcap, if_true]
    · simp only [cascadeAux, hcap, if_false]
      by_cases hfired : (body (setDone 1 s)).done = 0
      · simp only [hfired, if_true]
        have hi2 : iter + 1 ≤ 500 := by omega
        have hf2 : 501 - (iter + 1) ≤ fuel := by omega
        rw [ih (iter + 1) (body (setDone 1 s)) hi2 hf2]
        have : 500 - iter = 501 - (iter + 1) := by omega
        rw [this]
      · simp only [hfired, if_false]

theorem cascadeAux_passes (body : SimState → SimState) :
    ∀ (fuel iter : Nat) (s : SimState), iter + fuel ≤ 501 →
      (cascadeAux body iter fuel s).passes ≤ 501 := by
  intro fuel
  induction fuel with
  | zero => intro iter s h; simpa [cascadeAux, CascadeOut.passes] using h
  | succ fuel ih =>
    intro iter s h
    by_cases hcap : iter + 1 > 500
    · simp only [cascadeAux, hcap, if_true, CascadeOut.passes]; omega
    · simp only [cascadeAux, hcap, if_false]
      by_cases hfired : (body (setDone 1 s)).done = 0
      · simp only [hfired, if_true]
        exact ih (iter + 1) (body (setDone 1 s)) (by omega)
      · simp only [hfired, if_false, CascadeOut.passes]; omega

theorem cascadeAux_stuck_inv (body : SimState → SimState) (P : SimState → Prop)
    (hstep : ∀ s, P s → P (body (setDone 1 s)) ∧ (body (setDone 1 s)).done = 0) :
    ∀ (fuel iter : Nat) (s : SimState), P s → iter + fuel = 500 →
      ∃ s2, cascadeAux body iter (fuel + 1) s = .stuck s2 501 := by
  intro fuel
  induction fuel with
  | zero =>
    intro iter s hP hi
    have hcap : iter + 1 > 500 := by omega
    refine ⟨body (setDone 1 s), ?_⟩
    simp only [cascadeAux, hcap, if_true]
    have : iter + 1 = 501 := by omega
    rw [this]
  | succ fuel ih =>
    intro iter s hP hi
    have hcap : ¬ iter + 1 > 500 := by omega
    simp only [cascadeAux, hcap, if_false, (hstep s hP).2, if_true]
    exact ih (iter + 1) (body (setDone 1 s)) (hstep s hP).1 (by omega)

theorem dummySelfLoop_body (s : SimState) :
    buildCmdOut cap0 [tD] [] s = dummyStep cap0 tD s := rfl

theorem dummySelfLoop_inv (s : SimState) (hP : s.counts "p" = 1) :
    (buildCmdOut cap0 [tD] [] (setDone 1 s)).counts "p" = 1 ∧
    (buildCmdOut cap0 [tD] [] (setDone 1 s)).done = 0 := by
  rw [dummySelfLoop_body]
  have hen : isEnabledB tD (setDone 1 s) = true := by
    rw [isEnabledB, isEnabled_eval]
    simp [tD, setDone, hasToken, hP]
  have hfire := fire_spec cap0 tD (setDone 1 s)
  constructor
  · simp only [dummyStep, hen, if_true]
    show (fire cap0 tD (setDone 1 s)).counts "p" = 1
    rw [hfire.1 "p"]
    have h1 : (List.count "p" tD.fromPlaces : Int) = 1 := by decide
    have h2 : (List.count "p" tD.toPlaces : Int) = 1 := by decide
    rw [h1, h2]
    show s.counts "p" - 1 + 1 = 1
    rw [hP]
    decide
  · simp only [dummyStep, hen, if_true]
    rfl

/-- C5: the emitted cascade loop is a genuine terminating fixed-point
    search: its result does not depend on the structural bound once that
    bound covers the 500-pass cap, it never runs more than 501 passes, a
    pass firing nothing while the counter is within the cap ends the loop
    in quiescence, a pass that drives the counter past 500 raises the fatal
    stuck condition, and the net whose dummy transition `d1` feeds its own
    from-place reaches the fatal condition after 501 passes. -/
theorem c5_cascade_bounded (body : SimState → SimState) :
    (∀ (s : SimState) (fuel : Nat), 501 ≤ fuel →
      cascadeAux body 0 fuel (setDone 0 s) = cascadeRun body s) ∧
    (∀ s : SimState, (cascadeRun body s).passes ≤ 501) ∧
    (∀ (iter fuel : Nat) (s : SimState),
      (body (setDone 1 s)).done ≠ 0 → iter + 1 ≤ 500 →
      cascadeAux body iter (fuel + 1) s = .quiescent (body (setDone 1 s)) (iter + 1)) ∧
    (∀ (iter fuel : Nat) (s : SimState), iter + 1 > 500 →
      cascadeAux body iter (fuel + 1) s = .stuck (body (setDone 1 s)) (iter + 1)) ∧
    (∃ s2, cascadeRun (buildCmdOut cap0 [tD] []) sD = .stuck s2 501) := by
  refine ⟨fun s fuel hf => ?_, fun s => ?_, fun iter fuel s hq hle => ?_,
          fun iter fuel s hcap => ?_, ?_⟩
  · rw [cascadeAux_fuel body fuel 0 (setDone 0 s) (by omega) (by omega)]
    rfl
  · exact cascadeAux_passes body 501 0 (setDone 0 s) (by omega)
  · have hcap : ¬ iter + 1 > 500 := by omega
    simp only [cascadeAux, hcap, if_false, hq, if_false]
  · simp only [cascadeAux, hcap, if_true]
  · have hrun : cascadeRun (buildCmdOut cap0 [tD] []) sD
        = cascadeAux (buildCmdOut cap0 [tD] []) 0 (500 + 1) (setDone 0 sD) := rfl
    rw [hrun]
    exact cascadeAux_stuck_inv (buildCmdOut cap0 [tD] []) (fun s => s.counts "p" = 1)
      (fun s hP => dummySelfLoop_inv s hP) 500 0 (setDone 0 sD) (by decide) (by omega)

/-- Witness for C5: the empty pass body reaches quiescence after one pass
    with any structural bound at least 501, and the self-re-enabling dummy
    net reaches the fatal stuck condition after exactly 501 passes. -/
theorem c5_cascade_bounded_witness :
    (cascadeAux (buildCmdOut cap0 [] []) 0 502 (setDone 0 s0)
      = cascadeRun (buildCmdOut cap0 [] []) s0) ∧
    (cascadeRun (buildCmdOut cap0 [] []) s0).passes ≤ 501 ∧
    (cascadeAux (buildCmdOut cap0 [] []) 0 (500 + 1) (setDone 0 s0)
      = .quiescent (buildCmdOut cap0 [] [] (setDone 1 (setDone 0 s0))) 1) ∧
    (cascadeAux (buildCmdOut cap0 [] []) 500 (0 + 1) s0
      = .stuck (buildCmdOut cap0 [] [] (setDone 1 s0)) 501) ∧
    (∃ s2, cascadeRun (buildCmdOut cap0 [tD] []) sD = .stuck s2 501) := by
  have h := c5_cascade_bounded (buildCmdOut cap0 [] [])
  have hD := c5_cascade_bounded (buildCmdOut cap0 [tD] [])
  exact ⟨h.1 s0 502 (by omega), h.2.1 s0,
         h.2.2.1 0 500 (setDone 0 s0) (by decide) (by omega),
         h.2.2.2.1 500 0 s0 (by omega), hD.2.2.2.2⟩

/-! ### Association-list lemmas -/

theorem alookup_append_some {α β : Type} [DecidableEq α] (k : α) (l m : List (α × β))
    (v : β) (h : alookup k l = some v) : alookup k (l ++ m) = some v := by
  induction l with
  | nil => cases h
  | cons e rest ih =>
    rw [List.cons_append]
    by_cases he : k = e.1
    · simp only [alookup, he, if_pos rfl] at h ⊢
      · exact h
    · simp only [alookup, if_neg he] at h ⊢
      exact ih h

theorem alookup_append_none {α β : Type} [DecidableEq α] (k : α) (l m : List (α × β))
    (h : alookup k l = none) : alookup k (l ++ m) = alookup k m := by
  induction l with
  | nil => rfl
  | cons e rest ih =>
    rw [List.cons_append]
    by_cases he : k = e.1
    · simp only [alookup, he, if_pos rfl] at h
      cases h
    · simp only [alookup, if_neg he] at h ⊢
      exact ih h

theorem alookup_map_val {α β γ : Type} [DecidableEq α] (k : α) (f : β → γ)
    (l : List (α × β)) :
    alookup k (l.map fun e => (e.1, f e.2)) = (alookup k l).map f := by
  induction l with
  | nil => rfl
  | cons e rest ih =>
    by_cases he : k = e.1
    · simp [alookup, he]
    · simp [alookup, he, ih]

theorem alookup_aupdate_self {α β : Type} [DecidableEq α] (k : α) (f : β → β)
    (l : List (α × β)) : alookup k (aupdate k f l) = (alookup k l).map f := by
  induction l with
  | nil => rfl
  | cons e rest ih =>
    by_cases he : k = e.1
    · simp [aupdate, alookup, he]
    · simp [aupdate, alookup, he, ih]

theorem alookup_aupdate_ne {α β : Type} [DecidableEq α] (k k2 : α) (f : β → β)
    (l : List (α × β)) (h : k2 ≠ k) : alookup k2 (aupdate k f l) = alookup k2 l := by
  induction l with
  | nil => rfl
  | cons e rest ih =>
    by_cases he : k = e.1
    · subst he
      simp [aupdate, alookup, h]
    · by_cases he2 : k2 = e.1
      · simp [aupdate, alookup, he, he2]
      · simp [aupdate, alookup, he, he2, ih]

theorem aupdate_keys {α β : Type} [DecidableEq α] (k : α) (f : β → β) (l : List (α × β)) :
    (aupdate k f l).map Prod.fst = l.map Prod.fst := by
  induction l with
  | nil => rfl
  | cons e rest ih =>
    by_cases he : k = e.1
    · simp only [aupdate, if_pos he, List.map_cons]
    · simp only [aupdate, if_neg he, List.map_cons, ih]

theorem alookup_singleton {α β : Type} [DecidableEq α] (k : α) (v : β) :
    alookup k [(k, v)] = some v := by
  simp [alookup]

/-! ### C10: marking defaults -/

theorem readMarkings_spec (entries : List (String × Option Int)) (st st1 : BuildState)
    (hok : readMarkings st entries = .ok st1) :
    st1.markings = st.markings ++ (entries.map fun e => (e.1, e.2.getD 1)) ∧
    st1.places = st.places ∧ st1.caps = st.caps := by
  induction entries generalizing st with
  | nil =>
    cases hok
    simp
  | cons e rest ih =>
    rw [readMarkings] at hok
    by_cases hdup : (alookup e.1 st.markings).isSome
    · rw [addMarking, if_pos hdup] at hok
      cases hok
    · rw [addMarking, if_neg hdup] at hok
      obtain ⟨h1, h2, h3⟩ := ih _ hok
      refine ⟨?_, h2, h3⟩
      rw [h1]
      simp

/-- C10: a `.marking` entry `name = v` records `v`, a bare `name` records 1,
    and a place never mentioned in `.marking` is created with 0 tokens:
    the place built by `matchPlace` for `nm` after reading the marking
    section carries exactly that count. -/
theorem c10_marking_defaults (entries : List (String × Option Int)) (st1 : BuildState)
    (nm : String) (v : Int) (hok : readMarkings emptyBuild entries = .ok st1) :
    (alookup nm entries = some (some v) →
      ∃ P, alookup nm (matchPlace st1 nm).2.places = some P ∧ P.marking = v) ∧
    (alookup nm entries = some none →
      ∃ P, alookup nm (matchPlace st1 nm).2.places = some P ∧ P.marking = 1) ∧
    (alookup nm entries = none →
      ∃ P, alookup nm (matchPlace st1 nm).2.places = some P ∧ P.marking = 0) := by
  obtain ⟨hmk, hpl, _⟩ := readMarkings_spec entries emptyBuild st1 hok
  have hplaces : st1.places = [] := hpl
  have hnone : alookup nm st1.places = none := by rw [hplaces]; rfl
  have hmatch : matchPlace st1 nm =
      (st1.nextId, { st1 with
        places := st1.places ++
          [(nm, ⟨st1.nextId, (alookup nm st1.markings).getD 0,
                 (alookup nm st1.caps).getD 1, [], []⟩)],
        nextId := st1.nextId + 1 }) := by
    rw [matchPlace, hnone]
  have hfound : alookup nm (matchPlace st1 nm).2.places =
      some ⟨st1.nextId, (alookup nm st1.markings).getD 0,
            (alookup nm st1.caps).getD 1, [], []⟩ := by
    rw [hmatch]
    exact (alookup_append_none nm st1.places _ hnone).trans (alookup_singleton nm _)
  have hmval : alookup nm st1.markings = (alookup nm entries).map fun w => w.getD 1 := by
    rw [hmk]
    have he : (emptyBuild.markings : List (String × Int)) = [] := rfl
    rw [he, List.nil_append]
    exact alookup_map_val nm (fun w => w.getD 1) entries
  refine ⟨fun h => ?_, fun h => ?_, fun h => ?_⟩ <;>
    exact ⟨_, hfound, by rw [hmval, h]; rfl⟩

/-- Witness for C10 on `marksC10`: explicit value 2, bare name giving 1,
    and an unmentioned place giving 0. -/
theorem c10_marking_defaults_witness :
    (∃ P, alookup "p1" (matchPlace stM "p1").2.places = some P ∧ P.marking = 2) ∧
    (∃ P, alookup "p2" (matchPlace stM "p2").2.places = some P ∧ P.marking = 1) ∧
    (∃ P, alookup "p3" (matchPlace stM "p3").2.places = some P ∧ P.marking = 0) :=
  ⟨(c10_marking_defaults marksC10 stM "p1" 2 rfl).1 (by decide),
   (c10_marking_defaults marksC10 stM "p2" 2 rfl).2.1 (by decide),
   (c10_marking_defaults marksC10 stM "p3" 2 rfl).2.2 (by decide)⟩

/-! ### C9: malformed tokens -/

theorem findMatch_none_iff (cs : List Char) :
    findMatch cs = none ↔ ∀ c, c ∈ cs → isIdentStart c = false := by
  induction cs with
  | nil => simp [findMatch]
  | cons c rest ih =>
    by_cases h : isIdentStart c
    · simp [findMatch, h]
    · rw [show findMatch (c :: rest) = findMatch rest from by simp [findMatch, h], ih]
      constructor
      · intro hall d hd
        rcases List.mem_cons.mp hd with hd | hd
        · subst hd; simpa using h
        · exact hall d hd
      · intro hall d hd
        exact hall d (List.mem_cons_of_mem c hd)

theorem matchTP_malformed_iff (st : BuildState) (name : String) :
    matchTP st name = .error .malformedToken ↔ findMatch name.toList = none := by
  cases hfm : findMatch name.toList with
  | none =>
    have hfm2 : findMatch name.data = none := hfm
    simp [matchTP, hfm2]
  | some pr =>
    obtain ⟨signame, sigEdge⟩ := pr
    simp only [matchTP, hfm]
    constructor
    · intro h
      exfalso
      by_cases hs : signame ∈ st.signals
      · rw [if_pos hs] at h
        by_cases he : sigEdge ∈ edgeKeys
        · rw [if_pos he] at h
          cases halk : alookup (TransKey.sig signame sigEdge name) st.strans <;>
            rw [halk] at h <;> simp at h
        · rw [if_neg he] at h
          simp at h
      · rw [if_neg hs] at h
        by_cases hd : signame ∈ st.dummies
        · rw [if_pos hd] at h
          cases halk : alookup (TransKey.dum signame name) st.strans <;>
            rw [halk] at h <;> simp at h
        · rw [if_neg hd] at h
          simp at h
    · intro h
      cases h

/-- C9 counterexample: the token `1a` matches no recognizable token shape
    (an identifier must start with a letter or underscore), yet `matchTP`
    does not fail: the pattern's first match inside the token is `a`, the
    base is not a declared signal or dummy, and the whole token is silently
    resolved to a fresh place named `1a`. -/
theorem c9_malformed_counterexample :
    matchTP stC9 "1a" = .ok (.pl "1a" 0, stC9a) ∧
    (∃ P, alookup "1a" stC9a.places = some P) := by
  exact ⟨rfl, ⟨⟨0, 0, 1, [], []⟩, rfl⟩⟩

/-- C9 (amended): `matchTP` raises the malformed-token failure exactly for
    tokens containing no identifier-start character (`[a-zA-Z_]`) at all;
    a token containing one is resolved from the first pattern match inside
    it, even when the full token has no recognizable shape. -/
theorem c9_malformed_token (st : BuildState) (name : String) :
    matchTP st name = .error .malformedToken ↔
      ∀ c, c ∈ name.toList → isIdentStart c = false :=
  (matchTP_malformed_iff st name).trans (findMatch_none_iff name.toList)

/-- Witness for C9: a token with no identifier character fails, and one
    with an identifier character does not fail. -/
theorem c9_malformed_token_witness :
    matchTP stC9 "++" = .error .malformedToken ∧
    ¬ matchTP stC9 "1a" = .error .malformedToken :=
  ⟨(c9_malformed_token stC9 "++").mpr (by decide),
   fun h => absurd ((c9_malformed_token stC9 "1a").mp h 'a' (by decide)) (by decide)⟩

/-! ### C8: signal declaration validation -/

theorem addSignals_spec (decls : List (String × String)) (st st1 : BuildState)
    (hok : addSignals st decls = .ok st1) :
    st1.signals = st.signals ++ ioNames decls ∧
    (st.signals.Nodup → st1.signals.Nodup) := by
  induction decls generalizing st with
  | nil =>
    cases hok
    simp [ioNames]
  | cons d rest ih =>
    obtain ⟨k, n⟩ := d
    rw [addSignals] at hok
    by_cases hio : k = "input" ∨ k = "output"
    · rw [addSignal, if_pos hio] at hok
      by_cases hdup : n ∈ st.signals
      · rw [if_pos hdup] at hok
        cases hok
      · rw [if_neg hdup] at hok
        obtain ⟨h1, h2⟩ := ih _ hok
        have hkio : isIOKind k = true := by
          rcases hio with h | h <;> simp [isIOKind, h]
        have hnames : ioNames ((k, n) :: rest) = n :: ioNames rest := by
          simp [ioNames, List.filter_cons, hkio]
        refine ⟨?_, fun hnd => ?_⟩
        · rw [h1, hnames]
          simp
        · refine h2 ?_
          simp only [List.nodup_append, List.nodup_cons]
          exact ⟨hnd, by simp, by simpa [List.disjoint_singleton] using hdup⟩
    · rw [addSignal, if_neg hio] at hok
      obtain ⟨h1, h2⟩ := ih _ hok
      have hkio : isIOKind k = false := by
        simp only [isIOKind, Bool.or_eq_false_iff, decide_eq_false_iff_not]
        exact ⟨fun h => hio (Or.inl h), fun h => hio (Or.inr h)⟩
      have hnames : ioNames ((k, n) :: rest) = ioNames rest := by
        simp [ioNames, List.filter_cons, hkio]
      exact ⟨by rw [h1, hnames], h2⟩

/-- C8 counterexample: declaring the dummy label `a` twice (alongside the
    input `b`) does *not* fail the build — the dummy branch of the signal
    loop performs no duplicate check — refuting "the same signal name twice
    (in any of the declaration sections, including dummy) fails". -/
theorem c8_duplicate_dummy_counterexample :
    isOkE (readSignals mapDefault astC8) = true ∧ stC8.dummies = ["a", "a"] :=
  ⟨rfl, rfl⟩

/-- C8 (amended): the duplicate check covers exactly the declarations whose
    effective kind is input or output: a successful build has pairwise
    distinct, nonempty input/output signal names, so a duplicate among
    them, or an input/output section set declaring nothing, fails the
    build; duplicates in dummy-mapped sections are accepted silently. -/
theorem c8_signal_validation (m : SigMap) (a : Ast) :
    (∀ st1, readSignals m a = .ok st1 →
      st1.signals = ioNames (sigDecls m a) ∧ st1.signals.Nodup ∧ st1.signals ≠ []) ∧
    (¬ (ioNames (sigDecls m a)).Nodup → isOkE (readSignals m a) = false) ∧
    (ioNames (sigDecls m a) = [] → isOkE (readSignals m a) = false) := by
  have hmain : ∀ st1, readSignals m a = .ok st1 →
      st1.signals = ioNames (sigDecls m a) ∧ st1.signals.Nodup ∧ st1.signals ≠ [] := by
    intro st1 hok
    rw [readSignals] at hok
    cases hadd : addSignals emptyBuild (sigDecls m a) with
    | error e =>
      rw [hadd] at hok
      have hok2 : (Except.error e : Except BErr BuildState) = .ok st1 := hok
      cases hok2
    | ok st =>
      rw [hadd] at hok
      have hok2 : (if st.signals = [] then (Except.error BErr.noSignals : Except BErr BuildState)
          else .ok st) = .ok st1 := hok
      by_cases hemp : st.signals = []
      · rw [if_pos hemp] at hok2; cases hok2
      · rw [if_neg hemp] at hok2
        cases hok2
        obtain ⟨h1, h2⟩ := addSignals_spec (sigDecls m a) emptyBuild st1 hadd
        have he : (emptyBuild.signals : List String) = [] := rfl
        rw [he, List.nil_append] at h1
        exact ⟨h1, h2 (by rw [he]; exact List.nodup_nil), hemp⟩
  refine ⟨hmain, fun hnd => ?_, fun hemp => ?_⟩
  · cases hok : readSignals m a with
    | error e => rfl
    | ok st1 => exact absurd ((hmain st1 hok).1 ▸ (hmain st1 hok).2.1) hnd
  · cases hok : readSignals m a with
    | error e => rfl
    | ok st1 => exact absurd ((hmain st1 hok).1.trans hemp) (hmain st1 hok).2.2

/-- Witness for the amended C8: a valid build's signal list, a duplicated
    input failing, and a dummy-only declaration failing for emptiness. -/
theorem c8_signal_validation_witness :
    (stC8.signals = ioNames (sigDecls mapDefault astC8) ∧
      stC8.signals.Nodup ∧ stC8.signals ≠ []) ∧
    isOkE (readSignals mapDefault astDup) = false ∧
    isOkE (readSignals mapDefault astEmpty) = false :=
  ⟨(c8_signal_validation mapDefault astC8).1 stC8 rfl,
   (c8_signal_validation mapDefault astDup).2.1 (by decide),
   (c8_signal_validation mapDefault astEmpty).2.2 (by decide)⟩

/-! ### Cache-stability infrastructure for C3 and C4 -/

theorem refStable_refl (s : BuildState) : RefStable s s :=
  ⟨rfl, rfl, rfl, rfl, rfl, fun _ P h => ⟨P, h, rfl⟩, fun _ T h => ⟨T, h, rfl⟩⟩

theorem refStable_trans {s1 s2 s3 : BuildState}
    (h12 : RefStable s1 s2) (h23 : RefStable s2 s3) : RefStable s1 s3 := by
  obtain ⟨a1, b1, c1, d1, e1, f1, g1⟩ := h12
  obtain ⟨a2, b2, c2, d2, e2, f2, g2⟩ := h23
  refine ⟨a2.trans a1, b2.trans b1, c2.trans c1, d2.trans d1, e2.trans e1, ?_, ?_⟩
  · intro n P h
    obtain ⟨Q, hQ, hid⟩ := f1 n P h
    obtain ⟨R, hR, hid2⟩ := f2 n Q hQ
    exact ⟨R, hR, hid2.trans hid⟩
  · intro k T h
    obtain ⟨U, hU, hid⟩ := g1 k T h
    obtain ⟨V, hV, hid2⟩ := g2 k U hU
    exact ⟨V, hV, hid2.trans hid⟩

theorem matchPlace_strans (s : BuildState) (name : String) :
    (matchPlace s name).2.strans = s.strans := by
  cases halk : alookup name s.places <;> simp [matchPlace, halk]

theorem matchPlace_stable (s : BuildState) (name : String) :
    RefStable s (matchPlace s name).2 := by
  cases halk : alookup name s.places with
  | some P =>
    have hsame : (matchPlace s name).2 = s := by simp [matchPlace, halk]
    rw [hsame]
    exact refStable_refl s
  | none =>
    have hmp : (matchPlace s name).2 = { s with
        places := s.places ++ [(name, ⟨s.nextId, (alookup name s.markings).getD 0,
          (alookup name s.caps).getD 1, [], []⟩)],
        nextId := s.nextId + 1 } := by
      simp [matchPlace, halk]
    rw [hmp]
    refine ⟨rfl, rfl, rfl, rfl, rfl, ?_, fun k T h => ⟨T, h, rfl⟩⟩
    intro n P h
    exact ⟨P, alookup_append_some n s.places _ P h, rfl⟩

theorem strans_aupdate_stable (s : BuildState) (k : TransKey) (f : TransData → TransData)
    (hf : ∀ T, (f T).tid = T.tid) :
    RefStable s { s with strans := aupdate k f s.strans } := by
  refine ⟨rfl, rfl, rfl, rfl, rfl, fun n P h => ⟨P, h, rfl⟩, fun k2 T h => ?_⟩
  by_cases hk : k2 = k
  · subst hk
    refine ⟨f T, ?_, hf T⟩
    show alookup k2 (aupdate k2 f s.strans) = some (f T)
    rw [alookup_aupdate_self, h]
    rfl
  · refine ⟨T, ?_, rfl⟩
    show alookup k2 (aupdate k f s.strans) = some T
    rw [alookup_aupdate_ne k k2 f s.strans hk]
    exact h

theorem places_aupdate_stable (s : BuildState) (p : String) (f : PlaceData → PlaceData)
    (hf : ∀ P, (f P).pid = P.pid) :
    RefStable s { s with places := aupdate p f s.places } := by
  refine ⟨rfl, rfl, rfl, rfl, rfl, fun n P h => ?_, fun k T h => ⟨T, h, rfl⟩⟩
  by_cases hn : n = p
  · subst hn
    refine ⟨f P, ?_, hf P⟩
    show alookup n (aupdate n f s.places) = some (f P)
    rw [alookup_aupdate_self, h]
    rfl
  · refine ⟨P, ?_, rfl⟩
    show alookup n (aupdate p f s.places) = some P
    rw [alookup_aupdate_ne p n f s.places hn]
    exact h

theorem transAddTo_stable (k : TransKey) (p : String) (s : BuildState) :
    RefStable s (transAddTo k p s) :=
  strans_aupdate_stable s k _ (fun _ => rfl)

theorem transAddFrom_stable (k : TransKey) (p : String) (s : BuildState) :
    RefStable s (transAddFrom k p s) :=
  strans_aupdate_stable s k _ (fun _ => rfl)

theorem placeAddTo_stable (p : String) (k : TransKey) (s : BuildState) :
    RefStable s (placeAddTo p k s) :=
  places_aupdate_stable s p _ (fun _ => rfl)

theorem placeAddFrom_stable (p : String) (k : TransKey) (s : BuildState) :
    RefStable s (placeAddFrom p k s) :=
  places_aupdate_stable s p _ (fun _ => rfl)

theorem matchTP_eq_sig_hit (s : BuildState) (name signame sigEdge : String) (T : TransData)
    (hfm : findMatch name.toList = some (signame, sigEdge))
    (hs : signame ∈ s.signals) (he : sigEdge ∈ edgeKeys)
    (halk : alookup (TransKey.sig signame sigEdge name) s.strans = some T) :
    matchTP s name = .ok (.tr (TransKey.sig signame sigEdge name) T.tid, s) := by
  simp only [matchTP, hfm, if_pos hs, if_pos he, halk]

theorem matchTP_eq_sig_create (s : BuildState) (name signame sigEdge : String)
    (hfm : findMatch name.toList = some (signame, sigEdge))
    (hs : signame ∈ s.signals) (he : sigEdge ∈ edgeKeys)
    (halk : alookup (TransKey.sig signame sigEdge name) s.strans = none) :
    matchTP s name = .ok (.tr (TransKey.sig signame sigEdge name) s.nextId,
      { s with
        strans := s.strans ++ [(TransKey.sig signame sigEdge name,
                    ⟨s.nextId, decide (signame ∉ s.inputsK), [], []⟩)],
        nextId := s.nextId + 1 }) := by
  simp only [matchTP, hfm, if_pos hs, if_pos he, halk]

theorem matchTP_eq_keyErr (s : BuildState) (name signame sigEdge : String)
    (hfm : findMatch name.toList = some (signame, sigEdge))
    (hs : signame ∈ s.signals) (he : sigEdge ∉ edgeKeys) :
    matchTP s name = .error .keyErr := by
  simp only [matchTP, hfm, if_pos hs, if_neg he]

theorem matchTP_eq_dum_hit (s : BuildState) (name signame sigEdge : String) (T : TransData)
    (hfm : findMatch name.toList = some (signame, sigEdge))
    (hs : signame ∉ s.signals) (hd : signame ∈ s.dummies)
    (halk : alookup (TransKey.dum signame name) s.strans = some T) :
    matchTP s name = .ok (.tr (TransKey.dum signame name) T.tid, s) := by
  simp only [matchTP, hfm, if_neg hs, if_pos hd, halk]

theorem matchTP_eq_dum_create (s : BuildState) (name signame sigEdge : String)
    (hfm : findMatch name.toList = some (signame, sigEdge))
    (hs : signame ∉ s.signals) (hd : signame ∈ s.dummies)
    (halk : alookup (TransKey.dum signame name) s.strans = none) :
    matchTP s name = .ok (.tr (TransKey.dum signame name) s.nextId,
      { s with
        strans := s.strans ++ [(TransKey.dum signame name,
                    ⟨s.nextId, false, [], []⟩)],
        nextId := s.nextId + 1 }) := by
  simp only [matchTP, hfm, if_neg hs, if_pos hd, halk]

theorem matchTP_eq_place (s : BuildState) (name signame sigEdge : String)
    (hfm : findMatch name.toList = some (signame, sigEdge))
    (hs : signame ∉ s.signals) (hd : signame ∉ s.dummies) :
    matchTP s name = .ok (.pl name (matchPlace s name).1, (matchPlace s name).2) := by
  simp only [matchTP, hfm, if_neg hs, if_neg hd]

theorem matchTP_stable (s s1 : BuildState) (name : String) (r : TPRef)
    (h : matchTP s name = .ok (r, s1)) : RefStable s s1 := by
  cases hfm : findMatch name.toList with
  | none =>
    rw [(matchTP_malformed_iff s name).mpr hfm] at h
    exact absurd h (by simp)
  | some pr =>
    obtain ⟨signame, sigEdge⟩ := pr
    by_cases hs : signame ∈ s.signals
    · by_cases he : sigEdge ∈ edgeKeys
      · cases halk : alookup (TransKey.sig signame sigEdge name) s.strans with
        | some T =>
          rw [matchTP_eq_sig_hit s name signame sigEdge T hfm hs he halk] at h
          simp only [Except.ok.injEq, Prod.mk.injEq] at h
          rw [← h.2]
          exact refStable_refl s
        | none =>
          rw [matchTP_eq_sig_create s name signame sigEdge hfm hs he halk] at h
          simp only [Except.ok.injEq, Prod.mk.injEq] at h
          rw [← h.2]
          refine ⟨rfl, rfl, rfl, rfl, rfl, fun n P hp => ⟨P, hp, rfl⟩, ?_⟩
          intro k T hT
          exact ⟨T, alookup_append_some k s.strans _ T hT, rfl⟩
      · rw [matchTP_eq_keyErr s name signame sigEdge hfm hs he] at h
        exact absurd h (by simp)
    · by_cases hd : signame ∈ s.dummies
      · cases halk : alookup (TransKey.dum signame name) s.strans with
        | some T =>
          rw [matchTP_eq_dum_hit s name signame sigEdge T hfm hs hd halk] at h
          simp only [Except.ok.injEq, Prod.mk.injEq] at h
          rw [← h.2]
          exact refStable_refl s
        | none =>
          rw [matchTP_eq_dum_create s name signame sigEdge hfm hs hd halk] at h
          simp only [Except.ok.injEq, Prod.mk.injEq] at h
          rw [← h.2]
          refine ⟨rfl, rfl, rfl, rfl, rfl, fun n P hp => ⟨P, hp, rfl⟩, ?_⟩
          intro k T hT
          exact ⟨T, alookup_append_some k s.strans _ T hT, rfl⟩
      · rw [matchTP_eq_place s name signame sigEdge hfm hs hd] at h
        simp only [Except.ok.injEq, Prod.mk.injEq] at h
        rw [← h.2]
        exact matchPlace_stable s name

theorem connect_stable (s s1 : BuildState) (fromName : String) (fromTP : TPRef)
    (toName : String) (h : connect s fromName fromTP toName = .ok s1) :
    RefStable s s1 := by
  rw [connect] at h
  cases hm : matchTP s toName with
  | error e => rw [hm] at h; cases h
  | ok pr =>
    obtain ⟨toTP, st1⟩ := pr
    rw [hm] at h
    have hst1 : RefStable s st1 := matchTP_stable s st1 toName toTP hm
    cases fromTP with
    | pl pn pi =>
      cases toTP with
      | pl qn qi => cases h
      | tr tk ti =>
        have h2 : Except.ok (transAddFrom tk pn (placeAddTo pn tk st1)) = .ok s1 := h
        simp only [Except.ok.injEq] at h2
        rw [← h2]
        exact refStable_trans hst1 (refStable_trans (placeAddTo_stable pn tk st1)
          (transAddFrom_stable tk pn _))
    | tr fk fi =>
      cases toTP with
      | pl qn qi =>
        have h2 : Except.ok (placeAddFrom qn fk (transAddTo fk qn st1)) = .ok s1 := h
        simp only [Except.ok.injEq] at h2
        rw [← h2]
        exact refStable_trans hst1 (refStable_trans (transAddTo_stable fk qn st1)
          (placeAddFrom_stable qn fk _))
      | tr tk ti =>
        have h2 : Except.ok (placeAddTo (fromName ++ "," ++ toName) tk
            (placeAddFrom (fromName ++ "," ++ toName) fk
              (transAddFrom tk (fromName ++ "," ++ toName)
                (transAddTo fk (fromName ++ "," ++ toName)
                  (matchPlace st1 (fromName ++ "," ++ toName)).2)))) = .ok s1 := h
        simp only [Except.ok.injEq] at h2
        rw [← h2]
        refine refStable_trans hst1 (refStable_trans (matchPlace_stable st1 _)
          (refStable_trans (transAddTo_stable fk _ _)
            (refStable_trans (transAddFrom_stable tk _ _)
              (refStable_trans (placeAddFrom_stable _ fk _) (placeAddTo_stable _ tk _)))))

theorem buildStep_stable (s s1 : BuildState) (h : BuildStep s s1) : RefStable s s1 := by
  cases h with
  | tp name r s s1 hm => exact matchTP_stable _ _ name r hm
  | place name s => exact matchPlace_stable _ name
  | conn fromName fromTP toName s s1 hm => exact connect_stable _ _ fromName fromTP toName hm

theorem buildReach_stable (s s1 : BuildState) (h : BuildReach s s1) : RefStable s s1 := by
  induction h with
  | refl s => exact refStable_refl s
  | step s s1 s2 hstep _ ih => exact refStable_trans (buildStep_stable s s1 hstep) ih

theorem matchTP_ok_inv (s s1 : BuildState) (name : String) (r : TPRef)
    (h : matchTP s name = .ok (r, s1)) :
    ∃ signame sigEdge, findMatch name.toList = some (signame, sigEdge) ∧
      ((signame ∈ s.signals ∧ sigEdge ∈ edgeKeys ∧
        ∃ T, alookup (TransKey.sig signame sigEdge name) s1.strans = some T ∧
          r = .tr (TransKey.sig signame sigEdge name) T.tid) ∨
       (signame ∉ s.signals ∧ signame ∈ s.dummies ∧
        ∃ T, alookup (TransKey.dum signame name) s1.strans = some T ∧
          r = .tr (TransKey.dum signame name) T.tid) ∨
       (signame ∉ s.signals ∧ signame ∉ s.dummies ∧
        ∃ P, alookup name s1.places = some P ∧ r = .pl name P.pid)) := by
  cases hfm : findMatch name.toList with
  | none =>
    rw [(matchTP_malformed_iff s name).mpr hfm] at h
    exact absurd h (by simp)
  | some pr =>
    obtain ⟨signame, sigEdge⟩ := pr
    refine ⟨signame, sigEdge, rfl, ?_⟩
    by_cases hs : signame ∈ s.signals
    · by_cases he : sigEdge ∈ edgeKeys
      · cases halk : alookup (TransKey.sig signame sigEdge name) s.strans with
        | some T =>
          rw [matchTP_eq_sig_hit s name signame sigEdge T hfm hs he halk] at h
          simp only [Except.ok.injEq, Prod.mk.injEq] at h
          refine Or.inl ⟨hs, he, T, ?_, h.1.symm⟩
          rw [← h.2]
          exact halk
        | none =>
          rw [matchTP_eq_sig_create s name signame sigEdge hfm hs he halk] at h
          simp only [Except.ok.injEq, Prod.mk.injEq] at h
          refine Or.inl ⟨hs, he, ⟨s.nextId, decide (signame ∉ s.inputsK), [], []⟩,
            ?_, h.1.symm⟩
          rw [← h.2]
          exact (alookup_append_none _ s.strans _ halk).trans (alookup_singleton _ _)
      · rw [matchTP_eq_keyErr s name signame sigEdge hfm hs he] at h
        exact absurd h (by simp)
    · by_cases hd : signame ∈ s.dummies
      · cases halk : alookup (TransKey.dum signame name) s.strans with
        | some T =>
          rw [matchTP_eq_dum_hit s name signame sigEdge T hfm hs hd halk] at h
          simp only [Except.ok.injEq, Prod.mk.injEq] at h
          refine Or.inr (Or.inl ⟨hs, hd, T, ?_, h.1.symm⟩)
          rw [← h.2]
          exact halk
        | none =>
          rw [matchTP_eq_dum_create s name signame sigEdge hfm hs hd halk] at h
          simp only [Except.ok.injEq, Prod.mk.injEq] at h
          refine Or.inr (Or.inl ⟨hs, hd, ⟨s.nextId, false, [], []⟩, ?_, h.1.symm⟩)
          rw [← h.2]
          exact (alookup_append_none _ s.strans _ halk).trans (alookup_singleton _ _)
      · rw [matchTP_eq_place s name signame sigEdge hfm hs hd] at h
        simp only [Except.ok.injEq, Prod.mk.injEq] at h
        refine Or.inr (Or.inr ⟨hs, hd, ?_⟩)
        cases halk : alookup name s.places with
        | some P =>
          have hm1 : (matchPlace s name).1 = P.pid := by simp [matchPlace, halk]
          have hm2 : (matchPlace s name).2 = s := by simp [matchPlace, halk]
          refine ⟨P, ?_, ?_⟩
          · rw [← h.2, hm2]
            exact halk
          · rw [← h.1, hm1]
        | none =>
          have hm1 : (matchPlace s name).1 = s.nextId := by simp [matchPlace, halk]
          have hm2 : (matchPlace s name).2 = { s with
              places := s.places ++ [(name,
                ⟨s.nextId, (alookup name s.markings).getD 0,
                 (alookup name s.caps).getD 1, [], []⟩)],
              nextId := s.nextId + 1 } := by
            simp [matchPlace, halk]
          refine ⟨⟨s.nextId, (alookup name s.markings).getD 0,
            (alookup name s.caps).getD 1, [], []⟩, ?_, ?_⟩
          · rw [← h.2, hm2]
            exact (alookup_append_none _ s.places _ halk).trans (alookup_singleton _ _)
          · rw [← h.1, hm1]

theorem matchTP_again (s s1 s2 : BuildState) (name : String) (r : TPRef)
    (h : matchTP s name = .ok (r, s1)) (h12 : RefStable s1 s2) :
    matchTP s2 name = .ok (r, s2) := by
  obtain ⟨signame, sigEdge, hfm, hcase⟩ := matchTP_ok_inv s s1 name r h
  have hs1 := matchTP_stable s s1 name r h
  have hsig : s2.signals = s.signals := h12.1.trans hs1.1
  have hdum : s2.dummies = s.dummies := h12.2.2.1.trans hs1.2.2.1
  rcases hcase with ⟨hs, he, T, halk, hr⟩ | ⟨hs, hd, T, halk, hr⟩ | ⟨hs, hd, P, halk, hr⟩
  · obtain ⟨U, hU, htid⟩ := h12.2.2.2.2.2.2 _ _ halk
    rw [matchTP_eq_sig_hit s2 name signame sigEdge U hfm (by rw [hsig]; exact hs) he hU,
        htid, hr]
  · obtain ⟨U, hU, htid⟩ := h12.2.2.2.2.2.2 _ _ halk
    rw [matchTP_eq_dum_hit s2 name signame sigEdge U hfm (by rw [hsig]; exact hs)
        (by rw [hdum]; exact hd) hU, htid, hr]
  · obtain ⟨Q, hQ, hpid⟩ := h12.2.2.2.2.2.1 _ _ halk
    have hm1 : (matchPlace s2 name).1 = Q.pid := by simp [matchPlace, hQ]
    have hm2 : (matchPlace s2 name).2 = s2 := by simp [matchPlace, hQ]
    rw [matchTP_eq_place s2 name signame sigEdge hfm (by rw [hsig]; exact hs)
        (by rw [hdum]; exact hd), hm1, hm2, hpid, hr]

/-- C4: token resolution is idempotent: once `matchTP` has resolved a token
    to a cached Place or Transition, resolving the same token text again
    after any interleaving of further resolutions, implicit-place lookups
    and arc connections returns the identical cached object (same reference
    and identity) and leaves the build state unchanged. -/
theorem c4_resolution_idempotent (s s1 s2 : BuildState) (name : String) (r : TPRef)
    (h : matchTP s name = .ok (r, s1)) (hreach : BuildReach s1 s2) :
    matchTP s2 name = .ok (r, s2) :=
  matchTP_again s s1 s2 name r h (buildReach_stable s1 s2 hreach)

/-- Witness for C4: after resolving `a+` and then `b+` in `stB`, resolving
    `a+` again returns the same transition object (id 0) and no new state. -/
theorem c4_resolution_idempotent_witness :
    matchTP resB.2 "a+" = .ok (.tr (.sig "a" "+" "a+") 0, resB.2) :=
  c4_resolution_idempotent stB resA.2 resB.2 "a+" (.tr (.sig "a" "+" "a+") 0) rfl
    (.step resA.2 resB.2 resB.2 (.tp "b+" resB.1 resA.2 resB.2 rfl) (.refl resB.2))

/-! ### C3: implicit-place synthesis -/

theorem connect_eq_trtr (s1 : BuildState) (a : String) (fk : TransKey) (fi : Nat)
    (b : String) (tk : TransKey) (ti : Nat) (s2 : BuildState)
    (hb : matchTP s1 b = .ok (.tr tk ti, s2)) :
    connect s1 a (.tr fk fi) b = .ok (placeAddTo (a ++ "," ++ b) tk
      (placeAddFrom (a ++ "," ++ b) fk (transAddFrom tk (a ++ "," ++ b)
        (transAddTo fk (a ++ "," ++ b) (matchPlace s2 (a ++ "," ++ b)).2)))) := by
  simp only [connect, hb]

theorem strans_after_edges_from (L : List (TransKey × TransData)) (fk tk : TransKey)
    (imp : String) (T0 : TransData) (h : alookup fk L = some T0) :
    ∃ T, alookup fk (aupdate tk (fun U => { U with fromPlaces := U.fromPlaces ++ [imp] })
      (aupdate fk (fun U => { U with toPlaces := U.toPlaces ++ [imp] }) L)) = some T ∧
      T.toPlaces = T0.toPlaces ++ [imp] := by
  by_cases hk : fk = tk
  · subst hk
    refine ⟨⟨T0.tid, T0.hasVar, T0.fromPlaces ++ [imp], T0.toPlaces ++ [imp]⟩, ?_, rfl⟩
    rw [alookup_aupdate_self, alookup_aupdate_self, h]
    rfl
  · refine ⟨⟨T0.tid, T0.hasVar, T0.fromPlaces, T0.toPlaces ++ [imp]⟩, ?_, rfl⟩
    rw [alookup_aupdate_ne tk fk _ _ hk, alookup_aupdate_self, h]
    rfl

theorem strans_after_edges_to (L : List (TransKey × TransData)) (fk tk : TransKey)
    (imp : String) (T0 : TransData) (h : alookup tk L = some T0) :
    ∃ T, alookup tk (aupdate tk (fun U => { U with fromPlaces := U.fromPlaces ++ [imp] })
      (aupdate fk (fun U => { U with toPlaces := U.toPlaces ++ [imp] }) L)) = some T ∧
      T.fromPlaces = T0.fromPlaces ++ [imp] := by
  by_cases hk : tk = fk
  · subst hk
    refine ⟨⟨T0.tid, T0.hasVar, T0.fromPlaces ++ [imp], T0.toPlaces ++ [imp]⟩, ?_, rfl⟩
    rw [alookup_aupdate_self, alookup_aupdate_self, h]
    rfl
  · refine ⟨⟨T0.tid, T0.hasVar, T0.fromPlaces ++ [imp], T0.toPlaces⟩, ?_, rfl⟩
    rw [alookup_aupdate_self, alookup_aupdate_ne fk tk _ _ hk, h]
    rfl

theorem places_after_edges (M : List (String × PlaceData)) (imp : String)
    (fk tk : TransKey) (P0 : PlaceData) (h : alookup imp M = some P0) :
    alookup imp (aupdate imp (fun Q => { Q with toTrans := Q.toTrans ++ [tk] })
      (aupdate imp (fun Q => { Q with fromTrans := Q.fromTrans ++ [fk] }) M)) =
      some ⟨P0.pid, P0.marking, P0.capacity, P0.fromTrans ++ [fk], P0.toTrans ++ [tk]⟩ := by
  rw [alookup_aupdate_self, alookup_aupdate_self, h]
  rfl

theorem tr_entry_exists (s s1 : BuildState) (name : String) (k : TransKey) (i : Nat)
    (h : matchTP s name = .ok (.tr k i, s1)) :
    ∃ T, alookup k s1.strans = some T := by
  obtain ⟨signame, sigEdge, _, hcase⟩ := matchTP_ok_inv s s1 name (.tr k i) h
  rcases hcase with ⟨_, _, T, hT, hr⟩ | ⟨_, _, T, hT, hr⟩ | ⟨_, _, P, _, hr⟩
  · simp only [TPRef.tr.injEq] at hr
    rw [hr.1]
    exact ⟨T, hT⟩
  · simp only [TPRef.tr.injEq] at hr
    rw [hr.1]
    exact ⟨T, hT⟩
  · exact absurd hr (by simp)

/-- C3: an arc whose two ends resolve to Transitions synthesizes (or, when
    already cached, reuses) exactly one implicit Place named
    `fromToken + "," + toToken`, initialized from the marking/capacity
    overrides under that comma-joined name (defaults 0 and 1), and splices
    it between the transitions: the from-transition gains it as a to-place,
    the to-transition gains it as a from-place, and the place records both
    transitions — no direct transition-to-transition edge is created. -/
theorem c3_implicit_place (s s1 s2 : BuildState) (a b : String) (fk tk : TransKey)
    (fi ti : Nat)
    (ha : matchTP s a = .ok (.tr fk fi, s1)) (hb : matchTP s1 b = .ok (.tr tk ti, s2)) :
    ∃ s3, connect s1 a (.tr fk fi) b = .ok s3 ∧
      ((alookup (a ++ "," ++ b) s2.places = none →
        s3.places.map Prod.fst = s2.places.map Prod.fst ++ [a ++ "," ++ b] ∧
        ∃ P, alookup (a ++ "," ++ b) s3.places = some P ∧
          P.marking = (alookup (a ++ "," ++ b) s2.markings).getD 0 ∧
          P.capacity = (alookup (a ++ "," ++ b) s2.caps).getD 1 ∧
          P.fromTrans = [fk] ∧ P.toTrans = [tk]) ∧
       (∀ P0, alookup (a ++ "," ++ b) s2.places = some P0 →
        s3.places.map Prod.fst = s2.places.map Prod.fst ∧
        ∃ P, alookup (a ++ "," ++ b) s3.places = some P ∧
          P.marking = P0.marking ∧ P.capacity = P0.capacity ∧
          P.fromTrans = P0.fromTrans ++ [fk] ∧ P.toTrans = P0.toTrans ++ [tk])) ∧
      (∃ T0 T, alookup fk s2.strans = some T0 ∧ alookup fk s3.strans = some T ∧
        T.toPlaces = T0.toPlaces ++ [a ++ "," ++ b]) ∧
      (∃ T0 T, alookup tk s2.strans = some T0 ∧ alookup tk s3.strans = some T ∧
        T.fromPlaces = T0.fromPlaces ++ [a ++ "," ++ b]) := by
  have hconn := connect_eq_trtr s1 a fk fi b tk ti s2 hb
  obtain ⟨T1, hT1⟩ := tr_entry_exists s s1 a fk fi ha
  have hstab12 : RefStable s1 s2 := matchTP_stable s1 s2 b (.tr tk ti) hb
  obtain ⟨Tf0, hTf0, _⟩ := hstab12.2.2.2.2.2.2 fk T1 hT1
  obtain ⟨Tt0, hTt0⟩ := tr_entry_exists s1 s2 b tk ti hb
  refine ⟨_, hconn, ?_, ?_, ?_⟩
  · have hpl : (placeAddTo (a ++ "," ++ b) tk
        (placeAddFrom (a ++ "," ++ b) fk (transAddFrom tk (a ++ "," ++ b)
          (transAddTo fk (a ++ "," ++ b) (matchPlace s2 (a ++ "," ++ b)).2)))).places =
        aupdate (a ++ "," ++ b) (fun Q => { Q with toTrans := Q.toTrans ++ [tk] })
          (aupdate (a ++ "," ++ b) (fun Q => { Q with fromTrans := Q.fromTrans ++ [fk] })
            (matchPlace s2 (a ++ "," ++ b)).2.places) := rfl
    constructor
    · intro hnone
      have hX : (matchPlace s2 (a ++ "," ++ b)).2.places = s2.places ++
          [(a ++ "," ++ b, ⟨s2.nextId, (alookup (a ++ "," ++ b) s2.markings).getD 0,
            (alookup (a ++ "," ++ b) s2.caps).getD 1, [], []⟩)] := by
        simp [matchPlace, hnone]
      have hbase : alookup (a ++ "," ++ b) (matchPlace s2 (a ++ "," ++ b)).2.places =
          some ⟨s2.nextId, (alookup (a ++ "," ++ b) s2.markings).getD 0,
            (alookup (a ++ "," ++ b) s2.caps).getD 1, [], []⟩ := by
        rw [hX]
        exact (alookup_append_none _ s2.places _ hnone).trans (alookup_singleton _ _)
      constructor
      · rw [hpl, aupdate_keys, aupdate_keys, hX, List.map_append]
        rfl
      · refine ⟨⟨s2.nextId, (alookup (a ++ "," ++ b) s2.markings).getD 0,
          (alookup (a ++ "," ++ b) s2.caps).getD 1, [] ++ [fk], [] ++ [tk]⟩,
          ?_, rfl, rfl, rfl, rfl⟩
        rw [hpl]
        exact places_after_edges _ _ fk tk _ hbase
    · intro P0 hP0
      have hX : (matchPlace s2 (a ++ "," ++ b)).2 = s2 := by
        simp [matchPlace, hP0]
      constructor
      · rw [hpl, aupdate_keys, aupdate_keys, hX]
      · refine ⟨⟨P0.pid, P0.marking, P0.capacity, P0.fromTrans ++ [fk], P0.toTrans ++ [tk]⟩,
          ?_, rfl, rfl, rfl, rfl⟩
        rw [hpl, hX]
        exact places_after_edges _ _ fk tk _ hP0
  · have hstr : (placeAddTo (a ++ "," ++ b) tk
        (placeAddFrom (a ++ "," ++ b) fk (transAddFrom tk (a ++ "," ++ b)
          (transAddTo fk (a ++ "," ++ b) (matchPlace s2 (a ++ "," ++ b)).2)))).strans =
        aupdate tk (fun U => { U with fromPlaces := U.fromPlaces ++ [a ++ "," ++ b] })
          (aupdate fk (fun U => { U with toPlaces := U.toPlaces ++ [a ++ "," ++ b] })
            s2.strans) := by
      show aupdate tk _ (aupdate fk _ (matchPlace s2 (a ++ "," ++ b)).2.strans) = _
      rw [matchPlace_strans]
    obtain ⟨T, hT, hTo⟩ := strans_after_edges_from s2.strans fk tk (a ++ "," ++ b) Tf0 hTf0
    refine ⟨Tf0, T, hTf0, ?_, hTo⟩
    rw [hstr]
    exact hT
  · have hstr : (placeAddTo (a ++ "," ++ b) tk
        (placeAddFrom (a ++ "," ++ b) fk (transAddFrom tk (a ++ "," ++ b)
          (transAddTo fk (a ++ "," ++ b) (matchPlace s2 (a ++ "," ++ b)).2)))).strans =
        aupdate tk (fun U => { U with fromPlaces := U.fromPlaces ++ [a ++ "," ++ b] })
          (aupdate fk (fun U => { U with toPlaces := U.toPlaces ++ [a ++ "," ++ b] })
            s2.strans) := by
      show aupdate tk _ (aupdate fk _ (matchPlace s2 (a ++ "," ++ b)).2.strans) = _
      rw [matchPlace_strans]
    obtain ⟨T, hT, hFrom⟩ := strans_after_edges_to s2.strans fk tk (a ++ "," ++ b) Tt0 hTt0
    refine ⟨Tt0, T, hTt0, ?_, hFrom⟩
    rw [hstr]
    exact hT

/-- Witness for C3: connecting `a+` to `b+` in `stB` creates the implicit
    place `a+,b+`, picking up the marking override `<a+,b+> = 1` and the
    default capacity 1, spliced between the two transitions. -/
theorem c3_implicit_place_witness :
    ∃ s3, connect resA.2 "a+" (.tr (.sig "a" "+" "a+") 0) "b+" = .ok s3 ∧
      ∃ P, alookup "a+,b+" s3.places = some P ∧
        P.marking = 1 ∧ P.capacity = 1 ∧
        P.fromTrans = [.sig "a" "+" "a+"] ∧ P.toTrans = [.sig "b" "+" "b+"] := by
  obtain ⟨s3, hconn, hplace, _, _⟩ :=
    c3_implicit_place stB resA.2 resB.2 "a+" "b+" (.sig "a" "+" "a+") (.sig "b" "+" "b+")
      0 1 rfl rfl
  obtain ⟨hkeys, P, hP, hmk, hcp, hfr, hto⟩ := hplace.1 (by decide)
  refine ⟨s3, hconn, P, ?_, ?_, ?_, hfr, hto⟩
  · show alookup ("a+" ++ "," ++ "b+") s3.places = some P
    exact hP
  · rw [hmk]; decide
  · rw [hcp]; decide

end StgVA
